import Mathlib

/-!
# Verification of the BaseAuditBot deployment-monitor and audit pipeline

Shallow embedding of the core of the `base-audit-bot` repository
(TypeScript) into Lean 4, together with theorems settling the claims of
the specification.

Source files embedded here:
* `src/services/monitor.ts`   — monitor loop, audit worker, risk aggregation
* `src/services/analyzer.ts`  — source chunking (`chunkSourceCode`,
  `splitByLines`) and findings filtering (`parseFindings`)
* `src/services/basescan.ts`  — rate limiter and `getContractSource`
  (proxy resolution)
* `src/services/storage.ts`   — in-memory report indexes
* `src/routes/api.ts`         — on-demand audit endpoint

Conventions of the embedding:
* JS strings handled character-wise (slicing, regex scanning) are
  `List Char`; strings used only as atomic values are `String`.
  JS string `.length` is the character count (all modelled inputs are
  ASCII, where UTF-16 code-unit length and character count agree).
* External I/O (chain RPC, HTTP fetch, JSON.parse of untrusted text,
  hashing, UUIDs, clock) is passed in as explicit oracle arguments;
  the control flow around those calls is translated from the source.
* The single-threaded event loop is modelled by explicit state passing;
  the two-phase rate limiter (synchronous check, then post-sleep update)
  keeps the phases separate, exactly as the `await` splits the JS body.
* Unbounded loops / recursion (`startMonitor`'s block loop,
  `getContractSource`'s proxy recursion, the regex scan) are embedded
  with an explicit fuel argument; fuel is always instantiated so that it
  cannot run out except where divergence of the source program itself is
  being demonstrated.
-/

namespace BaseAuditBot

/-! ## Character classes (JS `\s`, `\w`, `String.prototype.trim`) -/

/-- JS whitespace (`\s` and `trim`): ASCII whitespace plus the Unicode
space characters recognised by ECMAScript. -/
def jsIsSpace (c : Char) : Bool :=
  c = ' ' || c = '\t' || c = '\n' || c = '\r' ||
  c = '\x0b' || c = '\x0c' ||
  c = '\u00A0' || c = '\u1680' ||
  ('\u2000' ≤ c && c ≤ '\u200A') ||
  c = '\u2028' || c = '\u2029' || c = '\u202F' || c = '\u205F' ||
  c = '\u3000' || c = '\uFEFF'

/-- JS `\w`: `[A-Za-z0-9_]`. -/
def jsIsWord (c : Char) : Bool :=
  c.isAlpha || c.isDigit || c = '_'

/-- `String.prototype.trim`: drop JS whitespace from both ends. -/
def jsTrim (cs : List Char) : List Char :=
  ((cs.dropWhile jsIsSpace).reverse.dropWhile jsIsSpace).reverse

/-! ## `splitByLines` (analyzer.ts lines 207-225)

JS `text.split('\n')` followed by greedy packing of whole lines into
chunks of at most `maxLength` characters. -/

/-- JS `text.split('\n')` on a character list.  `splitNl [] = [[]]`,
matching `''.split('\n') === ['']`. -/
def splitNl : List Char → List (List Char)
  | [] => [[]]
  | c :: cs =>
    if c = '\n' then [] :: splitNl cs
    else
      match splitNl cs with
      | [] => [[c]]
      | l :: ls => (c :: l) :: ls

/-- The loop body of `splitByLines`: `lines` still to process, `current`
the chunk being accumulated.  Mirrors the JS `for (const line of lines)`
loop and the trailing `if (current) chunks.push(current)`. -/
def splitByLinesGo (maxLength : Nat) : List (List Char) → List Char → List (List Char)
  | [], current => if current = [] then [] else [current]
  | l :: ls, current =>
    if maxLength < current.length + l.length + 1 ∧ current ≠ [] then
      -- `chunks.push(current); current = ''` and then
      -- `current += (current ? '\n' : '') + line` with `current` empty
      current :: splitByLinesGo maxLength ls l
    else
      splitByLinesGo maxLength ls (if current = [] then l else current ++ '\n' :: l)

/-- `splitByLines(text, maxLength)` from analyzer.ts. -/
def splitByLines (text : List Char) (maxLength : Nat) : List (List Char) :=
  splitByLinesGo maxLength (splitNl text) []

/-! ## The declaration-boundary regex (analyzer.ts line 174)

`/(?:^|\n)((?:abstract\s+)?(?:contract|interface|library)\s+\w+[^{]*\{)/g`
used via `matchAll`.  The scan below reproduces the engine's behaviour:
attempts start at every index from the previous match's end; at index 0
the `^` alternative applies, elsewhere only the `\n` alternative; the
greedy pieces `\s+`, `\w+`, `[^{]*` are over disjoint or brace-free
character classes, so the matched extent is the unique one computed
here. -/

/-- Length of the maximal prefix satisfying `p` (greedy `p*`). -/
def countWhile (p : Char → Bool) (cs : List Char) : Nat :=
  (cs.takeWhile p).length

/-- Index of the first `'{'` (the extent of greedy `[^{]*` before `\{`). -/
def findBrace : List Char → Option Nat
  | [] => none
  | c :: cs =>
    if c = '{' then some 0
    else (findBrace cs).map (· + 1)

/-- Match `kw ++ \s+ ++ \w+ ++ [^{]* ++ '{'` at the head of `cs`,
returning the number of characters consumed. -/
def tryKeywordAt (kw : List Char) (cs : List Char) : Option Nat :=
  if kw.isPrefixOf cs then
    let rest := cs.drop kw.length
    let ns := countWhile jsIsSpace rest
    if ns = 0 then none
    else
      let rest2 := rest.drop ns
      let nw := countWhile jsIsWord rest2
      if nw = 0 then none
      else
        match findBrace (rest2.drop nw) with
        | none => none
        | some d => some (kw.length + ns + nw + d + 1)
  else none

/-- The keyword alternation `contract|interface|library`. -/
def tryKeyword (cs : List Char) : Option Nat :=
  match tryKeywordAt "contract".data cs with
  | some n => some n
  | none =>
    match tryKeywordAt "interface".data cs with
    | some n => some n
    | none => tryKeywordAt "library".data cs

/-- The group `(?:abstract\s+)?(?:contract|interface|library)\s+\w+[^{]*\{`;
if the optional `abstract\s+` consumes but the rest fails, the engine
backtracks to the keyword alone. -/
def tryDecl (cs : List Char) : Option Nat :=
  let withAbstract :=
    if "abstract".data.isPrefixOf cs then
      let rest := cs.drop 8
      let ns := countWhile jsIsSpace rest
      if ns = 0 then none
      else (tryKeyword (rest.drop ns)).map (fun n => 8 + ns + n)
    else none
  match withAbstract with
  | some n => some n
  | none => tryKeyword cs

/-- `matchAll` scan from index `i` over the remaining characters `cs`
(positions after 0, where only the `\n` alternative of `(?:^|\n)` can
fire).  Returns `(index, endIndex)` pairs of the full matches; the full
match includes the leading `'\n'`.  `fuel` is initialised to the string
length; the remaining list shrinks at every step, so fuel never runs out
at the call sites below. -/
def scanFuel : Nat → List Char → Nat → List (Nat × Nat)
  | 0, _, _ => []
  | _ + 1, [], _ => []
  | fuel + 1, c :: ts, i =>
    if c = '\n' then
      match tryDecl ts with
      | some n => (i, i + 1 + n) :: scanFuel fuel (ts.drop n) (i + 1 + n)
      | none => scanFuel fuel ts (i + 1)
    else scanFuel fuel ts (i + 1)

/-- All matches of the boundary regex, as `(index, endIndex)` pairs.
At index 0 the zero-width `^` alternative is tried first; if the group
fails there, scanning proceeds with the `\n` alternative. -/
def scanMatches (s : List Char) : List (Nat × Nat) :=
  match tryDecl s with
  | some n => (0, n) :: scanFuel s.length (s.drop n) n
  | none => scanFuel s.length s 0

/-! ## `chunkSourceCode` (analyzer.ts lines 170-205) -/

def MAX_SOURCE_LENGTH : Nat := 16000

/-- `sourceCode.slice(a, b)` for `a ≤ b` (character indices). -/
def sliceStr (s : List Char) (a b : Nat) : List Char :=
  (s.drop a).take (b - a)

/-- The units of the boundary split: for each match index, the slice
from it to the next match index (or the end of the source). -/
def unitsOf (s : List Char) (starts : List Nat) : List (List Char) :=
  List.zipWith (fun a b => sliceStr s a b) starts (starts.tail ++ [s.length])

/-- `chunkSourceCode(sourceCode)` from analyzer.ts. -/
def chunkSourceCode (s : List Char) : List (List Char) :=
  let ms := scanMatches s
  if ms.length ≤ 1 then splitByLines s MAX_SOURCE_LENGTH
  else
    let starts := ms.map Prod.fst
    let units := unitsOf s starts
    let chunks :=
      (units.map (fun u =>
        if u.length ≤ MAX_SOURCE_LENGTH then [u]
        else splitByLines u MAX_SOURCE_LENGTH)).flatten
    match starts with
    | [] => chunks
    | i0 :: _ =>
      if 0 < i0 then
        let pre := jsTrim (s.take i0)
        if pre ≠ [] then
          match chunks with
          | [] => chunks
          | c0 :: cr => (pre ++ '\n' :: '\n' :: c0) :: cr
        else chunks
      else chunks

/-! ## Findings and risk aggregation

`SolidityFinding` from types.ts; `parseFindings` from analyzer.ts
(lines 152-168); `determineOverallRisk` / `generateSummary` from
monitor.ts (lines 235-260).  JS numbers in `[0,1]` are modelled as `ℚ`
(only compared, never computed with). -/

structure Finding where
  type : String
  severity : String
  line : Nat
  description : String
  suggestion : String
  cweId : Option String
  confidence : ℚ
  category : String
  deriving DecidableEq, Repr

/-- `parseFindings(text, confidenceThreshold)`.  The regex extraction of
a JSON array from the LLM output and `JSON.parse` are the oracle
`jfind`; `none` covers "no JSON array found" and parse failure (both
return `[]` in the source). -/
def parseFindings (jfind : String → Option (List Finding))
    (text : String) (confidenceThreshold : ℚ) : List Finding :=
  match jfind text with
  | none => []
  | some findings => findings.filter (fun f => decide (confidenceThreshold ≤ f.confidence))

/-- The per-chunk aggregation loop of `analyzeContract` (analyzer.ts
lines 21-34): each chunk's parsed findings are filtered by the
confidence threshold and concatenated in chunk order.  The chunks'
raw (pre-filter) analyzer outputs are given as `raws`. -/
def analyzeAggregate (raws : List (List Finding)) (confidenceThreshold : ℚ) : List Finding :=
  (raws.map (fun fs => fs.filter (fun f => decide (confidenceThreshold ≤ f.confidence)))).flatten

/-- `determineOverallRisk(findings)` from monitor.ts. -/
def determineOverallRisk (findings : List Finding) : String :=
  if findings.any (fun f => f.severity == "critical") then "critical"
  else if findings.any (fun f => f.severity == "high") then "high"
  else if findings.any (fun f => f.severity == "medium") then "medium"
  else if findings.any (fun f => f.severity == "low") then "low"
  else "none"

/-- Severity rank, `critical > high > medium > low` (spec §3). -/
def sevRank (s : String) : Nat :=
  if s = "critical" then 4
  else if s = "high" then 3
  else if s = "medium" then 2
  else if s = "low" then 1
  else 0

def rankToStr : Nat → String
  | 4 => "critical"
  | 3 => "high"
  | 2 => "medium"
  | 1 => "low"
  | _ => "none"

def maxSevRank (findings : List Finding) : Nat :=
  findings.foldr (fun f m => Nat.max (sevRank f.severity) m) 0

/-- The spec's definition of overall risk: the maximum severity among
the findings, or "none" when there are no findings. -/
def maxSeverityRisk (findings : List Finding) : String :=
  rankToStr (maxSevRank findings)

/-- `generateSummary(findings, contractName)` from monitor.ts. -/
def generateSummary (findings : List Finding) (contractName : String) : String :=
  if findings.length = 0 then
    "No security issues found in " ++ contractName ++ "."
  else
    let critical := (findings.filter (fun f => f.severity == "critical")).length
    let high := (findings.filter (fun f => f.severity == "high")).length
    let medium := (findings.filter (fun f => f.severity == "medium")).length
    let low := (findings.filter (fun f => f.severity == "low")).length
    let parts :=
      (if 0 < critical then [toString critical ++ " critical"] else []) ++
      (if 0 < high then [toString high ++ " high"] else []) ++
      (if 0 < medium then [toString medium ++ " medium"] else []) ++
      (if 0 < low then [toString low ++ " low"] else [])
    "Found " ++ toString findings.length ++ " issue(s) in " ++ contractName ++ ": " ++
      String.intercalate ", " parts

/-! ## Storage (storage.ts)

The two in-memory indexes.  `Map.set`/`Map.get` semantics ("get returns
the last value set") is modelled by prepending to an association list
that is read through `find?` (first match = most recent write). -/

structure AuditReport where
  id : String
  contractAddress : String
  contractName : String
  deploymentTxHash : String
  deployer : String
  blockNumber : Nat
  deployedAt : Nat
  auditedAt : Nat
  sourceAvailable : Bool
  findings : List Finding
  summary : String
  overallRisk : String
  analysisTimeMs : Nat
  compilerVersion : Option String
  sourceCodeHash : Option String
  deriving DecidableEq, Repr

structure Store where
  byId : List (String × AuditReport)
  byAddress : List (String × AuditReport)
  deriving DecidableEq, Repr

def Store.empty : Store := ⟨[], []⟩

/-- JS `String.prototype.toLowerCase()` (character-wise; the modelled
addresses are ASCII). -/
def jsToLower (s : String) : String :=
  String.mk (s.data.map Char.toLower)

/-- `saveAudit(report, dataDir)`: updates both indexes (the on-disk
write is outside the model). -/
def saveAudit (store : Store) (report : AuditReport) : Store :=
  { byId := (report.id, report) :: store.byId
    byAddress := (jsToLower report.contractAddress, report) :: store.byAddress }

/-- `getAuditByAddress(address)`: case-insensitive lookup. -/
def getAuditByAddress (store : Store) (address : String) : Option AuditReport :=
  (store.byAddress.find? (fun p => p.1 == jsToLower address)).map (·.2)

/-! ## The audit worker (`processContract`, monitor.ts lines 156-233) -/

structure ContractDeployment where
  txHash : String
  contractAddress : String
  deployer : String
  blockNumber : Nat
  timestamp : Nat
  bytecodeSize : Nat
  deriving DecidableEq, Repr

structure ContractSource where
  contractAddress : String
  contractName : String
  compilerVersion : String
  sourceCode : String
  abi : String
  constructorArguments : String
  optimizationUsed : Bool
  runs : Nat
  evmVersion : String
  library : String
  licenseType : String
  isProxy : Bool
  implementationAddress : Option String
  deriving DecidableEq, Repr

/-- `MonitorState` from types.ts (the `isRunning` / `startedAt` fields
play no role in the claims' paths and are carried unchanged). -/
structure MonitorState where
  lastProcessedBlock : Nat
  contractsFound : Nat
  contractsAudited : Nat
  contractsSkipped : Nat
  deriving DecidableEq, Repr

/-- External effects performed by one `processContract` run, in order. -/
inductive WorkerEv
  | fetchSource
  | analyze
  | save
  deriving DecidableEq, Repr

/-- `processContract(deployment, config)`.  External results are
oracles: `fetchRes` is what `getContractSource` returned, `analyzeRes`
what `analyzeContract` returned (`Except.error` = the exception caught
by the worker's try/catch), `newId`/`nowMs`/`durMs`/`hashHex` stand for
`uuidv4()`, `Date.now()`, the measured analysis time and the sha256
hex digest.  The 30s debounce sleep has no state effect. -/
def processContract (st : MonitorState) (store : Store) (dep : ContractDeployment)
    (fetchRes : Option ContractSource) (analyzeRes : Except Unit (List Finding))
    (newId : String) (nowMs durMs : Nat) (hashHex : String) :
    MonitorState × Store × List WorkerEv :=
  -- Check if already audited
  match getAuditByAddress store dep.contractAddress with
  | some _ => (st, store, [])
  | none =>
    -- Fetch source code from Basescan
    match fetchRes with
    | none =>
      -- No verified source — save minimal report
      ({ st with contractsSkipped := st.contractsSkipped + 1 },
       saveAudit store
         { id := newId
           contractAddress := dep.contractAddress
           contractName := "Unknown"
           deploymentTxHash := dep.txHash
           deployer := dep.deployer
           blockNumber := dep.blockNumber
           deployedAt := dep.timestamp
           auditedAt := nowMs
           sourceAvailable := false
           findings := []
           summary := "Source code not verified on Basescan. Unable to audit."
           overallRisk := "none"
           analysisTimeMs := 0
           compilerVersion := none
           sourceCodeHash := none },
       [.fetchSource, .save])
    | some source =>
      match analyzeRes with
      | .error _ => (st, store, [.fetchSource, .analyze])
      | .ok findings =>
        ({ st with contractsAudited := st.contractsAudited + 1 },
         saveAudit store
           { id := newId
             contractAddress := dep.contractAddress
             contractName := source.contractName
             deploymentTxHash := dep.txHash
             deployer := dep.deployer
             blockNumber := dep.blockNumber
             deployedAt := dep.timestamp
             auditedAt := nowMs
             sourceAvailable := true
             findings := findings
             summary := generateSummary findings source.contractName
             overallRisk := determineOverallRisk findings
             analysisTimeMs := durMs
             compilerVersion := some source.compilerVersion
             sourceCodeHash := some hashHex },
         [.fetchSource, .analyze, .save])

/-! ## The monitor polling tick (monitor.ts lines 76-145)

One iteration of the `while (!stopRequested)` polling loop, for the
case where `client.getBlockNumber()` returned `currentBlock`.  The
cooperative stop flag, polled at every block iteration, is modelled as
the predicate `stop : Nat → Bool` — `stop b` is the flag's value when
the loop condition is evaluated for `blockNum = b`.  The per-block
transaction scan is external to this claim; the tick returns the list
of block numbers whose bodies were entered. -/

/-- The inner `for (let blockNum = fromBlock; blockNum <= toBlock &&
!stopRequested; blockNum++)` loop: `count = toBlock + 1 - fromBlock`
iterations remain, `b` is the current block number. -/
def blockLoop (stop : Nat → Bool) : Nat → Nat → List Nat
  | 0, _ => []
  | count + 1, b => if stop b then [] else b :: blockLoop stop count (b + 1)

/-- One polling tick.  After the block loop — whether it ran to
completion or exited on the stop flag — the code executes
`monitorState.lastProcessedBlock = toBlock`. -/
def monitorTick (st : MonitorState) (currentBlock : Nat) (stop : Nat → Bool) :
    MonitorState × List Nat :=
  if st.lastProcessedBlock < currentBlock then
    let fromBlock := st.lastProcessedBlock + 1
    let scanned := blockLoop stop (currentBlock + 1 - fromBlock) fromBlock
    ({ st with lastProcessedBlock := currentBlock }, scanned)
  else (st, [])

/-! ## The rate limiter (basescan.ts lines 5-24)

`rateLimitWait` has a synchronous part (up to the `await` on the
timer) and, when the window is exhausted, a resume part that runs when
the timer fires.  Times are milliseconds. -/

structure RLState where
  lastRequestTime : Nat
  requestsThisSecond : Nat
  deriving DecidableEq, Repr

inductive RLSync
  | proceed
  | sleepUntil (wake : Nat)
  deriving DecidableEq, Repr

/-- The synchronous part of `rateLimitWait`, entered at time `now`
(`now` is `Date.now()`; call times never precede `lastRequestTime`).
When no sleep is needed the trailing `requestsThisSecond++` also runs
here. -/
def rateLimitSync (st : RLState) (now : Nat) : RLState × RLSync :=
  let st1 :=
    if 1000 ≤ now - st.lastRequestTime then
      { lastRequestTime := now, requestsThisSecond := 0 }
    else st
  if 5 ≤ st1.requestsThisSecond then
    (st1, .sleepUntil (now + (1000 - (now - st1.lastRequestTime))))
  else
    ({ st1 with requestsThisSecond := st1.requestsThisSecond + 1 }, .proceed)

/-- The resume part: after the timer fires at `wake`, the caller runs
`requestsThisSecond = 0; lastRequestTime = Date.now()` and then the
trailing `requestsThisSecond++`. -/
def rateLimitResume (_st : RLState) (wake : Nat) : RLState :=
  { lastRequestTime := wake, requestsThisSecond := 1 }

/-- A purely synchronous sequence of calls (none of which sleeps would
interleave): thread the limiter state through the given call times and
record each call's proceed time (`none` when that call had to sleep).
Used to exhibit traces. -/
def rateLimitTrace (st : RLState) : List Nat → List (Nat × Option Nat)
  | [] => []
  | now :: rest =>
    match rateLimitSync st now with
    | (st', .proceed) => (now, some now) :: rateLimitTrace st' rest
    | (st', .sleepUntil _) => (now, none) :: rateLimitTrace st' rest

/-! ## `getContractSource` (basescan.ts lines 26-142)

The HTTP call and JSON decoding of the Basescan envelope are the
oracle `env : String → Option BasescanRecord`: `env address = none`
covers every path that returns `null` before a record is available
(HTTP/abort error, `status !== '1'`, missing `result[0].SourceCode`).
`jparse` is the oracle for `JSON.parse(...)?.sources` on source
payloads (`none` = parse failure or no `sources` key), returning the
`sources` map as `(filename, content)` pairs in `Object.entries`
order.

The proxy recursion of the source has no depth bound, so it is
embedded with fuel: the outer `Option` of the result is `none` when
`fuel` ran out — i.e. when the source program is still recursing. -/

structure BasescanRecord where
  SourceCode : String
  ABI : String
  ContractName : String
  CompilerVersion : String
  OptimizationUsed : String
  Runs : Nat
  ConstructorArguments : String
  EVMVersion : String
  Library : String
  LicenseType : String
  Proxy : String
  Implementation : String
  deriving DecidableEq, Repr

/-- `parseMultiFileSource(raw)`: strip the outer braces of the
double-brace-wrapped payload, parse, and mark file boundaries. -/
def parseMultiFileSource (jparse : String → Option (List (String × String)))
    (raw : String) : String :=
  let jsonStr := String.mk ((raw.data.drop 1).dropLast)
  match jparse jsonStr with
  | some sources =>
    String.intercalate "\n\n"
      (sources.map (fun p => "// --- " ++ p.1 ++ " ---\n" ++ p.2))
  | none => raw

/-- The source-shape normalisation inside `getContractSource`
(basescan.ts lines 62-77). -/
def normalizeSource (jparse : String → Option (List (String × String)))
    (sourceCode : String) : String :=
  if "\x7b\x7b".data.isPrefixOf sourceCode.data then
    parseMultiFileSource jparse sourceCode
  else if "\x7b".data.isPrefixOf sourceCode.data then
    match jparse sourceCode with
    | some sources => String.intercalate "\n\n" (sources.map (·.2))
    | none => sourceCode
  else sourceCode

/-- `getContractSource(address, apiKey)`.  Result:
`none` = fuel exhausted (the source is still recursing);
`some none` = the source returned `null`;
`some (some cs)` = the source returned `cs`. -/
def getContractSource (jparse : String → Option (List (String × String)))
    (env : String → Option BasescanRecord) :
    Nat → String → Option (Option ContractSource)
  | 0, _ => none
  | fuel + 1, address =>
    match env address with
    | none => some none
    | some result =>
      -- Empty source means not verified
      if result.SourceCode = "" then some none
      else
        let sourceCode := normalizeSource jparse result.SourceCode
        let contractSource : ContractSource :=
          { contractAddress := address
            contractName := if result.ContractName = "" then "Unknown" else result.ContractName
            compilerVersion := if result.CompilerVersion = "" then "Unknown" else result.CompilerVersion
            sourceCode := sourceCode
            abi := if result.ABI = "" then "[]" else result.ABI
            constructorArguments := result.ConstructorArguments
            optimizationUsed := result.OptimizationUsed = "1"
            runs := result.Runs
            evmVersion := if result.EVMVersion = "" then "default" else result.EVMVersion
            library := result.Library
            licenseType := if result.LicenseType = "" then "None" else result.LicenseType
            isProxy := result.Proxy = "1"
            implementationAddress := if result.Implementation = "" then none else some result.Implementation }
        -- If it's a proxy, also try to fetch the implementation source
        match contractSource.isProxy, contractSource.implementationAddress with
        | true, some impl =>
          match getContractSource jparse env fuel impl with
          | none => none
          | some none => some (some contractSource)
          | some (some implSource) =>
            some (some
              { contractSource with
                sourceCode :=
                  "// PROXY CONTRACT: " ++ address ++ "\n" ++
                  "// IMPLEMENTATION: " ++ impl ++ "\n\n" ++
                  implSource.sourceCode
                contractName :=
                  contractSource.contractName ++ " (Proxy -> " ++
                  implSource.contractName ++ ")" })
        | _, _ => some (some contractSource)

/-! ## The on-demand audit endpoint (routes/api.ts, `POST /audit`)

Modelled from the `existing`-check onward (address syntax validation
precedes it and rejects with 400; `addrClean` is the trimmed,
lowercased address).  The inline risk/summary computation of the route
is character-for-character the same as `determineOverallRisk` /
`generateSummary` in monitor.ts, so those definitions are reused. -/

inductive ApiResp
  | cached (report : AuditReport)
  | notVerified
  | success (report : AuditReport)
  | analysisError
  deriving DecidableEq, Repr

def onDemandAudit (store : Store) (addrClean : String)
    (fetchRes : Option ContractSource) (analyzeRes : Except Unit (List Finding))
    (newId : String) (nowMs durMs : Nat) (hashHex : String) :
    Store × ApiResp × List WorkerEv :=
  -- Check if already audited
  match getAuditByAddress store addrClean with
  | some existing =>
    if existing.sourceAvailable then (store, .cached existing, [])
    else onDemandFetch store addrClean fetchRes analyzeRes newId nowMs durMs hashHex
  | none => onDemandFetch store addrClean fetchRes analyzeRes newId nowMs durMs hashHex
where
  /-- The fetch-and-analyze tail of the route handler. -/
  onDemandFetch (store : Store) (addrClean : String)
      (fetchRes : Option ContractSource) (analyzeRes : Except Unit (List Finding))
      (newId : String) (nowMs durMs : Nat) (hashHex : String) :
      Store × ApiResp × List WorkerEv :=
    match fetchRes with
    | none => (store, .notVerified, [.fetchSource])
    | some source =>
      match analyzeRes with
      | .error _ => (store, .analysisError, [.fetchSource, .analyze])
      | .ok findings =>
        let audit : AuditReport :=
          { id := newId
            contractAddress := addrClean
            contractName := source.contractName
            deploymentTxHash := "on-demand"
            deployer := "unknown"
            blockNumber := 0
            deployedAt := 0
            auditedAt := nowMs
            sourceAvailable := true
            findings := findings
            summary := generateSummary findings source.contractName
            overallRisk := determineOverallRisk findings
            analysisTimeMs := durMs
            compilerVersion := some source.compilerVersion
            sourceCodeHash := some hashHex }
        (saveAudit store audit, .success audit, [.fetchSource, .analyze, .save])

/-! ## Helper lemmas -/

/-- The block loop scans exactly the longest prefix of the range on
which the stop flag reads false. -/
theorem blockLoop_eq_takeWhile (stop : Nat → Bool) :
    ∀ (count b : Nat),
      blockLoop stop count b = (List.range' b count).takeWhile (fun x => !stop x) := by
  intro count
  induction count with
  | zero => intro b; rfl
  | succ n ih =>
    intro b
    rw [List.range'_succ, List.takeWhile_cons, blockLoop]
    by_cases h : stop b = true
    · simp [h]
    · simp only [Bool.not_eq_true] at h
      simp [h, ih]

/-! ## Claim C1 — monitor stop mid-range and the last-processed marker -/

/-- **C1 (counterexample).**  With `lastProcessedBlock = 10`, current
height 14, and the stop flag raised before block 13's iteration, the
loop scans only blocks 11 and 12, yet the marker is advanced to 14 —
it covers blocks 13 and 14 whose transactions were never scanned, so
the marker does not "reflect only fully completed blocks". -/
theorem monitorStopMidrange_counterexample :
    (monitorTick ⟨10, 0, 0, 0⟩ 14 (fun b => decide (13 ≤ b))).2 = [11, 12] ∧
    ((monitorTick ⟨10, 0, 0, 0⟩ 14 (fun b => decide (13 ≤ b))).1).lastProcessedBlock = 14 ∧
    13 ∉ (monitorTick ⟨10, 0, 0, 0⟩ 14 (fun b => decide (13 ≤ b))).2 := by
  decide

/-- **C1 (amended).**  When a stop is requested mid-range the block
loop exits early (it scans exactly the longest stop-free prefix of
`[last+1, current]`), but the marker is then advanced to the top of
the whole attempted range `current`, covering even the unscanned
blocks; across ticks the marker is monotonically non-decreasing. -/
theorem monitorStopMidrange_amended (st : MonitorState) (currentBlock : Nat)
    (stop : Nat → Bool) (h : st.lastProcessedBlock < currentBlock) :
    (monitorTick st currentBlock stop).2 =
      (List.range' (st.lastProcessedBlock + 1)
        (currentBlock - st.lastProcessedBlock)).takeWhile (fun b => !stop b) ∧
    ((monitorTick st currentBlock stop).1).lastProcessedBlock = currentBlock ∧
    (∀ (st' : MonitorState) (cb : Nat) (sf : Nat → Bool),
      st'.lastProcessedBlock ≤ ((monitorTick st' cb sf).1).lastProcessedBlock) := by
  refine ⟨?_, ?_, ?_⟩
  · simp only [monitorTick, if_pos h, blockLoop_eq_takeWhile]
    congr 2
    omega
  · simp [monitorTick, if_pos h]
  · intro st' cb sf
    unfold monitorTick
    split
    · next hlt => exact Nat.le_of_lt hlt
    · exact Nat.le_refl _

theorem monitorStopMidrange_amended_witness :
    (10 : Nat) < 14 ∧
    ((monitorTick ⟨10, 0, 0, 0⟩ 14 (fun b => decide (12 ≤ b))).2 =
        (List.range' 11 4).takeWhile (fun b => !(decide (12 ≤ b))) ∧
      ((monitorTick ⟨10, 0, 0, 0⟩ 14 (fun b => decide (12 ≤ b))).1).lastProcessedBlock = 14 ∧
      (∀ (st' : MonitorState) (cb : Nat) (sf : Nat → Bool),
        st'.lastProcessedBlock ≤ ((monitorTick st' cb sf).1).lastProcessedBlock)) :=
  ⟨by decide, monitorStopMidrange_amended ⟨10, 0, 0, 0⟩ 14 _ (by decide)⟩

/-! ## Claim C2 — re-processing an already-audited deployment -/

/-- **C2 (counterexample).**  A deployment whose address already has a
report is dropped with *no* counter change: the skipped counter stays
at 0 instead of being incremented, refuting "increments only the
duplicate/skipped counter". -/
theorem duplicateDeployment_counterexample :
    (processContract ⟨100, 1, 0, 0⟩
        (saveAudit Store.empty
          { id := "r1", contractAddress := "0xAAA", contractName := "T"
            deploymentTxHash := "0xt", deployer := "0xd", blockNumber := 7
            deployedAt := 1, auditedAt := 2, sourceAvailable := true
            findings := [], summary := "s", overallRisk := "none"
            analysisTimeMs := 3, compilerVersion := none, sourceCodeHash := none })
        ⟨"0xt2", "0xAAA", "0xd2", 8, 9, 10⟩ none (.ok []) "r2" 11 12 "h")
      = (⟨100, 1, 0, 0⟩,
         saveAudit Store.empty
          { id := "r1", contractAddress := "0xAAA", contractName := "T"
            deploymentTxHash := "0xt", deployer := "0xd", blockNumber := 7
            deployedAt := 1, auditedAt := 2, sourceAvailable := true
            findings := [], summary := "s", overallRisk := "none"
            analysisTimeMs := 3, compilerVersion := none, sourceCodeHash := none },
         []) ∧
    ((processContract ⟨100, 1, 0, 0⟩
        (saveAudit Store.empty
          { id := "r1", contractAddress := "0xAAA", contractName := "T"
            deploymentTxHash := "0xt", deployer := "0xd", blockNumber := 7
            deployedAt := 1, auditedAt := 2, sourceAvailable := true
            findings := [], summary := "s", overallRisk := "none"
            analysisTimeMs := 3, compilerVersion := none, sourceCodeHash := none })
        ⟨"0xt2", "0xAAA", "0xd2", 8, 9, 10⟩ none (.ok []) "r2" 11 12 "h").1).contractsSkipped
      ≠ 0 + 1 := by
  constructor
  · decide
  · decide

/-- **C2 (amended).**  A deployment whose contract address already has
a report produces no new report, performs no fetch or analysis, and
changes *no* counter at all — in particular neither the skipped nor
the audited counter is incremented. -/
theorem duplicateDeployment_amended (st : MonitorState) (store : Store)
    (dep : ContractDeployment) (fetchRes : Option ContractSource)
    (analyzeRes : Except Unit (List Finding)) (newId : String)
    (nowMs durMs : Nat) (hashHex : String) (r : AuditReport)
    (h : getAuditByAddress store dep.contractAddress = some r) :
    processContract st store dep fetchRes analyzeRes newId nowMs durMs hashHex
      = (st, store, []) := by
  unfold processContract
  rw [h]

theorem duplicateDeployment_amended_witness :
    processContract ⟨100, 1, 0, 0⟩
        (saveAudit Store.empty
          { id := "r1", contractAddress := "0xBBB", contractName := "T"
            deploymentTxHash := "0xt", deployer := "0xd", blockNumber := 7
            deployedAt := 1, auditedAt := 2, sourceAvailable := false
            findings := [], summary := "s", overallRisk := "none"
            analysisTimeMs := 3, compilerVersion := none, sourceCodeHash := none })
        ⟨"0xt2", "0xBBB", "0xd2", 8, 9, 10⟩ none (.ok []) "r2" 11 12 "h"
      = (⟨100, 1, 0, 0⟩,
         saveAudit Store.empty
          { id := "r1", contractAddress := "0xBBB", contractName := "T"
            deploymentTxHash := "0xt", deployer := "0xd", blockNumber := 7
            deployedAt := 1, auditedAt := 2, sourceAvailable := false
            findings := [], summary := "s", overallRisk := "none"
            analysisTimeMs := 3, compilerVersion := none, sourceCodeHash := none },
         []) :=
  duplicateDeployment_amended _ _ _ _ _ _ _ _ _
    { id := "r1", contractAddress := "0xBBB", contractName := "T"
      deploymentTxHash := "0xt", deployer := "0xd", blockNumber := 7
      deployedAt := 1, auditedAt := 2, sourceAvailable := false
      findings := [], summary := "s", overallRisk := "none"
      analysisTimeMs := 3, compilerVersion := none, sourceCodeHash := none }
    (by decide)

/-! ## Claim C7 — missing verified source yields a minimal report -/

/-- **C7.**  When the fetch returns no verified source (and the
address has no prior report), the worker persists a minimal report
with `sourceAvailable = false`, empty findings and overall risk
"none", increments the skipped counter, leaves the audited counter
unchanged, and completes normally (fetch and save happen; no analysis
and no error path is taken). -/
theorem noSourceMinimalReport (st : MonitorState) (store : Store)
    (dep : ContractDeployment) (analyzeRes : Except Unit (List Finding))
    (newId : String) (nowMs durMs : Nat) (hashHex : String)
    (h : getAuditByAddress store dep.contractAddress = none) :
    processContract st store dep none analyzeRes newId nowMs durMs hashHex
      = ({ st with contractsSkipped := st.contractsSkipped + 1 },
         saveAudit store
           { id := newId
             contractAddress := dep.contractAddress
             contractName := "Unknown"
             deploymentTxHash := dep.txHash
             deployer := dep.deployer
             blockNumber := dep.blockNumber
             deployedAt := dep.timestamp
             auditedAt := nowMs
             sourceAvailable := false
             findings := []
             summary := "Source code not verified on Basescan. Unable to audit."
             overallRisk := "none"
             analysisTimeMs := 0
             compilerVersion := none
             sourceCodeHash := none },
         [.fetchSource, .save]) ∧
    ((processContract st store dep none analyzeRes newId nowMs durMs hashHex).1).contractsAudited
      = st.contractsAudited := by
  unfold processContract
  rw [h]
  exact ⟨rfl, rfl⟩

theorem noSourceMinimalReport_witness :
    (processContract ⟨5, 2, 1, 1⟩ Store.empty
        ⟨"0xt", "0xCCC", "0xd", 3, 4, 5⟩ none (.ok []) "rid" 6 7 "hh").2.1
      = saveAudit Store.empty
          { id := "rid"
            contractAddress := "0xCCC"
            contractName := "Unknown"
            deploymentTxHash := "0xt"
            deployer := "0xd"
            blockNumber := 3
            deployedAt := 4
            auditedAt := 6
            sourceAvailable := false
            findings := []
            summary := "Source code not verified on Basescan. Unable to audit."
            overallRisk := "none"
            analysisTimeMs := 0
            compilerVersion := none
            sourceCodeHash := none } :=
  congrArg (fun t => t.2.1)
    ((noSourceMinimalReport ⟨5, 2, 1, 1⟩ Store.empty
        ⟨"0xt", "0xCCC", "0xd", 3, 4, 5⟩ (.ok []) "rid" 6 7 "hh" (by decide)).1)

/-! ## Claim C10 — on-demand endpoint vs monitor dedup -/

/-- **C10.**  The on-demand endpoint returns an existing report as a
cached result only when it has `sourceAvailable = true`; when the
existing report has `sourceAvailable = false` it re-fetches and
re-analyzes, and on success the fresh report overwrites the address
index entry.  The monitor worker, in contrast, drops a deployment as
soon as *any* report exists at its address. -/
theorem onDemandCacheOnlySourceAvailable :
    (∀ (store : Store) (addr : String) (r : AuditReport)
        (fetchRes : Option ContractSource) (analyzeRes : Except Unit (List Finding))
        (newId : String) (nowMs durMs : Nat) (hashHex : String),
      getAuditByAddress store addr = some r → r.sourceAvailable = true →
      onDemandAudit store addr fetchRes analyzeRes newId nowMs durMs hashHex
        = (store, .cached r, [])) ∧
    (∀ (store : Store) (addr : String) (r : AuditReport) (src : ContractSource)
        (fs : List Finding) (newId : String) (nowMs durMs : Nat) (hashHex : String),
      getAuditByAddress store addr = some r → r.sourceAvailable = false →
      jsToLower addr = addr →
      onDemandAudit store addr (some src) (.ok fs) newId nowMs durMs hashHex
        = (saveAudit store
            { id := newId, contractAddress := addr, contractName := src.contractName
              deploymentTxHash := "on-demand", deployer := "unknown", blockNumber := 0
              deployedAt := 0, auditedAt := nowMs, sourceAvailable := true
              findings := fs, summary := generateSummary fs src.contractName
              overallRisk := determineOverallRisk fs, analysisTimeMs := durMs
              compilerVersion := some src.compilerVersion
              sourceCodeHash := some hashHex },
           .success
            { id := newId, contractAddress := addr, contractName := src.contractName
              deploymentTxHash := "on-demand", deployer := "unknown", blockNumber := 0
              deployedAt := 0, auditedAt := nowMs, sourceAvailable := true
              findings := fs, summary := generateSummary fs src.contractName
              overallRisk := determineOverallRisk fs, analysisTimeMs := durMs
              compilerVersion := some src.compilerVersion
              sourceCodeHash := some hashHex },
           [.fetchSource, .analyze, .save]) ∧
      getAuditByAddress
          (onDemandAudit store addr (some src) (.ok fs) newId nowMs durMs hashHex).1 addr
        = some
            { id := newId, contractAddress := addr, contractName := src.contractName
              deploymentTxHash := "on-demand", deployer := "unknown", blockNumber := 0
              deployedAt := 0, auditedAt := nowMs, sourceAvailable := true
              findings := fs, summary := generateSummary fs src.contractName
              overallRisk := determineOverallRisk fs, analysisTimeMs := durMs
              compilerVersion := some src.compilerVersion
              sourceCodeHash := some hashHex }) ∧
    (∀ (st : MonitorState) (store : Store) (dep : ContractDeployment)
        (fetchRes : Option ContractSource) (analyzeRes : Except Unit (List Finding))
        (newId : String) (nowMs durMs : Nat) (hashHex : String) (r : AuditReport),
      getAuditByAddress store dep.contractAddress = some r →
      processContract st store dep fetchRes analyzeRes newId nowMs durMs hashHex
        = (st, store, [])) := by
  refine ⟨?_, ?_, ?_⟩
  · intro store addr r fetchRes analyzeRes newId nowMs durMs hashHex hget hsa
    unfold onDemandAudit
    rw [hget]
    simp [hsa]
  · intro store addr r src fs newId nowMs durMs hashHex hget hsa hlow
    have hres :
        onDemandAudit store addr (some src) (.ok fs) newId nowMs durMs hashHex
          = (saveAudit store
              { id := newId, contractAddress := addr, contractName := src.contractName
                deploymentTxHash := "on-demand", deployer := "unknown", blockNumber := 0
                deployedAt := 0, auditedAt := nowMs, sourceAvailable := true
                findings := fs, summary := generateSummary fs src.contractName
                overallRisk := determineOverallRisk fs, analysisTimeMs := durMs
                compilerVersion := some src.compilerVersion
                sourceCodeHash := some hashHex },
             .success
              { id := newId, contractAddress := addr, contractName := src.contractName
                deploymentTxHash := "on-demand", deployer := "unknown", blockNumber := 0
                deployedAt := 0, auditedAt := nowMs, sourceAvailable := true
                findings := fs, summary := generateSummary fs src.contractName
                overallRisk := determineOverallRisk fs, analysisTimeMs := durMs
                compilerVersion := some src.compilerVersion
                sourceCodeHash := some hashHex },
             [.fetchSource, .analyze, .save]) := by
      unfold onDemandAudit
      rw [hget]
      simp [hsa, onDemandAudit.onDemandFetch]
    refine ⟨hres, ?_⟩
    rw [hres]
    simp [getAuditByAddress, saveAudit, hlow, List.find?]
  · intro st store dep fetchRes analyzeRes newId nowMs durMs hashHex r hget
    unfold processContract
    rw [hget]

theorem onDemandCacheOnlySourceAvailable_witness :
    getAuditByAddress
        (saveAudit Store.empty
          { id := "r1", contractAddress := "0xddd", contractName := "T"
            deploymentTxHash := "0xt", deployer := "0xd", blockNumber := 7
            deployedAt := 1, auditedAt := 2, sourceAvailable := true
            findings := [], summary := "s", overallRisk := "none"
            analysisTimeMs := 3, compilerVersion := none, sourceCodeHash := none })
        "0xddd"
      = some
          { id := "r1", contractAddress := "0xddd", contractName := "T"
            deploymentTxHash := "0xt", deployer := "0xd", blockNumber := 7
            deployedAt := 1, auditedAt := 2, sourceAvailable := true
            findings := [], summary := "s", overallRisk := "none"
            analysisTimeMs := 3, compilerVersion := none, sourceCodeHash := none } ∧
    onDemandAudit
        (saveAudit Store.empty
          { id := "r1", contractAddress := "0xddd", contractName := "T"
            deploymentTxHash := "0xt", deployer := "0xd", blockNumber := 7
            deployedAt := 1, auditedAt := 2, sourceAvailable := true
            findings := [], summary := "s", overallRisk := "none"
            analysisTimeMs := 3, compilerVersion := none, sourceCodeHash := none })
        "0xddd" none (.ok []) "r2" 11 12 "hh"
      = (saveAudit Store.empty
          { id := "r1", contractAddress := "0xddd", contractName := "T"
            deploymentTxHash := "0xt", deployer := "0xd", blockNumber := 7
            deployedAt := 1, auditedAt := 2, sourceAvailable := true
            findings := [], summary := "s", overallRisk := "none"
            analysisTimeMs := 3, compilerVersion := none, sourceCodeHash := none },
         .cached
          { id := "r1", contractAddress := "0xddd", contractName := "T"
            deploymentTxHash := "0xt", deployer := "0xd", blockNumber := 7
            deployedAt := 1, auditedAt := 2, sourceAvailable := true
            findings := [], summary := "s", overallRisk := "none"
            analysisTimeMs := 3, compilerVersion := none, sourceCodeHash := none },
         []) :=
  ⟨by decide,
   onDemandCacheOnlySourceAvailable.1
     (saveAudit Store.empty
       { id := "r1", contractAddress := "0xddd", contractName := "T"
         deploymentTxHash := "0xt", deployer := "0xd", blockNumber := 7
         deployedAt := 1, auditedAt := 2, sourceAvailable := true
         findings := [], summary := "s", overallRisk := "none"
         analysisTimeMs := 3, compilerVersion := none, sourceCodeHash := none })
     "0xddd"
     { id := "r1", contractAddress := "0xddd", contractName := "T"
       deploymentTxHash := "0xt", deployer := "0xd", blockNumber := 7
       deployedAt := 1, auditedAt := 2, sourceAvailable := true
       findings := [], summary := "s", overallRisk := "none"
       analysisTimeMs := 3, compilerVersion := none, sourceCodeHash := none }
     none (.ok []) "r2" 11 12 "hh" (by decide) (by decide)⟩

/-! ## Claim C9 — the rate limiter's window -/

/-- **C9 (counterexample).**  The limiter uses a *fixed* window
anchored at `lastRequestTime`, not a rolling one: a schedule of 10
calls (one at t=2000 anchoring the window, four at t=2999, then five
from t=3000 after the anchor rolls) all proceed without any sleep, and
9 of them proceed inside the rolling one-second window starting at
t=2999 — more than the claimed maximum of 5. -/
theorem rateLimiterRolling_counterexample :
    rateLimitTrace ⟨0, 0⟩ [2000, 2999, 2999, 2999, 2999, 3000, 3001, 3001, 3001, 3001]
      = [(2000, some 2000), (2999, some 2999), (2999, some 2999), (2999, some 2999),
         (2999, some 2999), (3000, some 3000), (3001, some 3001), (3001, some 3001),
         (3001, some 3001), (3001, some 3001)] ∧
    ((rateLimitTrace ⟨0, 0⟩
        [2000, 2999, 2999, 2999, 2999, 3000, 3001, 3001, 3001, 3001]).filterMap (·.2)).countP
        (fun t => decide (2999 ≤ t ∧ t < 3999)) = 9 ∧
    5 < 9 := by
  decide

/-- **C9 (amended).**  The limiter throttles to at most 5 calls per
*fixed* one-second window anchored at `lastRequestTime` (not a rolling
window).  Seven calls issued instantly at t=2000: the first five
proceed at once, calls 6 and 7 find the window exhausted and sleep
until exactly the window's end t=3000 (the next window), where each
resumes and proceeds — no call is dropped.  The in-window counter
never exceeds 5. -/
theorem rateLimiterFixedWindow_amended :
    (rateLimitTrace ⟨0, 0⟩ [2000, 2000, 2000, 2000, 2000]
      = [(2000, some 2000), (2000, some 2000), (2000, some 2000), (2000, some 2000),
         (2000, some 2000)] ∧
     rateLimitSync ⟨2000, 5⟩ 2000 = (⟨2000, 5⟩, .sleepUntil 3000) ∧
     rateLimitResume ⟨2000, 5⟩ 3000 = ⟨3000, 1⟩ ∧
     rateLimitResume ⟨3000, 1⟩ 3000 = ⟨3000, 1⟩) ∧
    (∀ (st : RLState) (now wake : Nat),
      st.lastRequestTime ≤ now →
      (rateLimitSync st now).2 = .sleepUntil wake →
      wake = st.lastRequestTime + 1000 ∧ now < wake) ∧
    (∀ (st : RLState) (now : Nat),
      st.requestsThisSecond ≤ 5 →
      ((rateLimitSync st now).1).requestsThisSecond ≤ 5) ∧
    (∀ (st : RLState) (wake : Nat), (rateLimitResume st wake).requestsThisSecond ≤ 5) := by
  refine ⟨by decide, ?_, ?_, ?_⟩
  · intro st now wake hle hsleep
    unfold rateLimitSync at hsleep
    by_cases hreset : 1000 ≤ now - st.lastRequestTime
    · simp only [if_pos hreset] at hsleep
      split at hsleep
      · next h5 => omega
      · exact absurd hsleep (by simp)
    · simp only [if_neg hreset] at hsleep
      split at hsleep
      · next h5 =>
        simp only [RLSync.sleepUntil.injEq] at hsleep
        cases hsleep
        omega
      · exact absurd hsleep (by simp)
  · intro st now h5
    simp only [rateLimitSync]
    split
    · split <;> simp_all
    · split <;> simp_all
      omega
  · intro st wake
    simp [rateLimitResume]

theorem rateLimiterFixedWindow_amended_witness :
    (⟨2000, 5⟩ : RLState).lastRequestTime ≤ 2000 ∧
    (3000 = (⟨2000, 5⟩ : RLState).lastRequestTime + 1000 ∧ 2000 < 3000) :=
  ⟨by decide,
   rateLimiterFixedWindow_amended.2.1 ⟨2000, 5⟩ 2000 3000 (by decide) (by decide)⟩

/-! ## Claims C4 & C8 — proxy resolution -/

/-- A JSON oracle that always fails (all source payloads below are
plain text, so normalisation leaves them unchanged). -/
def jparseNone : String → Option (List (String × String)) := fun _ => none

/-- The `contractSource` record built by `getContractSource` before
proxy splicing (basescan.ts lines 79-93). -/
def baseSource (jp : String → Option (List (String × String)))
    (address : String) (r : BasescanRecord) : ContractSource :=
  { contractAddress := address
    contractName := if r.ContractName = "" then "Unknown" else r.ContractName
    compilerVersion := if r.CompilerVersion = "" then "Unknown" else r.CompilerVersion
    sourceCode := normalizeSource jp r.SourceCode
    abi := if r.ABI = "" then "[]" else r.ABI
    constructorArguments := r.ConstructorArguments
    optimizationUsed := r.OptimizationUsed = "1"
    runs := r.Runs
    evmVersion := if r.EVMVersion = "" then "default" else r.EVMVersion
    library := r.Library
    licenseType := if r.LicenseType = "" then "None" else r.LicenseType
    isProxy := r.Proxy = "1"
    implementationAddress := if r.Implementation = "" then none else some r.Implementation }

/-- One unfolding of `getContractSource` at a proxy record whose
implementation fetch has a known result. -/
theorem getContractSource_proxy_step
    (jp : String → Option (List (String × String)))
    (env : String → Option BasescanRecord) (address : String)
    (r : BasescanRecord) (impl : String) (fuel : Nat)
    (henv : env address = some r) (hsrc : r.SourceCode ≠ "")
    (hpx : r.Proxy = "1") (himpl : r.Implementation = impl) (hne : impl ≠ "") :
    getContractSource jp env (fuel + 1) address =
      match getContractSource jp env fuel impl with
      | none => none
      | some none => some (some (baseSource jp address r))
      | some (some implSource) =>
        some (some
          { baseSource jp address r with
            sourceCode :=
              "// PROXY CONTRACT: " ++ address ++ "\n" ++
              "// IMPLEMENTATION: " ++ impl ++ "\n\n" ++
              implSource.sourceCode
            contractName :=
              (baseSource jp address r).contractName ++ " (Proxy -> " ++
              implSource.contractName ++ ")" }) := by
  conv_lhs => rw [getContractSource]
  rw [henv]
  dsimp only
  rw [if_neg hsrc]
  simp only [hpx, himpl, if_neg hne, baseSource, decide_eq_true_eq]
  simp

/-- A two-hop proxy chain: `0xa` is a proxy onto `0xb`, which is
itself a proxy onto the plain contract `0xc`. -/
def envTwoHop : String → Option BasescanRecord := fun a =>
  if a = "0xa" then
    some { SourceCode := "srcA", ABI := "[]", ContractName := "A"
           CompilerVersion := "v1", OptimizationUsed := "0", Runs := 0
           ConstructorArguments := "", EVMVersion := "", Library := ""
           LicenseType := "", Proxy := "1", Implementation := "0xb" }
  else if a = "0xb" then
    some { SourceCode := "srcB", ABI := "[]", ContractName := "B"
           CompilerVersion := "v1", OptimizationUsed := "0", Runs := 0
           ConstructorArguments := "", EVMVersion := "", Library := ""
           LicenseType := "", Proxy := "1", Implementation := "0xc" }
  else if a = "0xc" then
    some { SourceCode := "srcC", ABI := "[]", ContractName := "C"
           CompilerVersion := "v1", OptimizationUsed := "0", Runs := 0
           ConstructorArguments := "", EVMVersion := "", Library := ""
           LicenseType := "", Proxy := "0", Implementation := "" }
  else none

/-- A cyclic proxy record: `0xa` is flagged as a proxy whose
implementation address is `0xa` itself. -/
def envCyclic : String → Option BasescanRecord := fun a =>
  if a = "0xa" then
    some { SourceCode := "srcX", ABI := "[]", ContractName := "X"
           CompilerVersion := "v1", OptimizationUsed := "0", Runs := 0
           ConstructorArguments := "", EVMVersion := "", Library := ""
           LicenseType := "", Proxy := "1", Implementation := "0xa" }
  else none

/-- **C4 (counterexample).**  Fetching the two-hop chain resolves the
implementation's own proxy flag as well: the returned contract name is
the doubly nested `"A (Proxy -> B (Proxy -> C))"`, not the one-hop
`"A (Proxy -> B)"` — the implementation contract's record *is* treated
as a further proxy, refuting the claimed 1-hop bound. -/
theorem proxyDepthOne_counterexample :
    (getContractSource jparseNone envTwoHop 3 "0xa").map
        (Option.map fun cs => cs.contractName)
      = some (some "A (Proxy -> B (Proxy -> C))") ∧
    ("A (Proxy -> B (Proxy -> C))" : String) ≠ "A (Proxy -> B)" := by
  decide

/-- **C4 (amended).**  Proxy resolution recurses with no depth bound:
an implementation record flagged as a proxy is itself resolved (the
two-hop chain yields a doubly nested name), and on a cyclic proxy
record the recursion never terminates — for every fuel bound the
evaluation is still running (`none`). -/
theorem proxyResolutionUnbounded_amended :
    (∀ fuel : Nat, getContractSource jparseNone envCyclic fuel "0xa" = none) ∧
    (getContractSource jparseNone envTwoHop 3 "0xa").map
        (Option.map fun cs => cs.contractName)
      = some (some "A (Proxy -> B (Proxy -> C))") := by
  constructor
  · intro fuel
    induction fuel with
    | zero => rfl
    | succ n ih =>
      rw [getContractSource_proxy_step jparseNone envCyclic "0xa"
            { SourceCode := "srcX", ABI := "[]", ContractName := "X"
              CompilerVersion := "v1", OptimizationUsed := "0", Runs := 0
              ConstructorArguments := "", EVMVersion := "", Library := ""
              LicenseType := "", Proxy := "1", Implementation := "0xa" }
            "0xa" n (by decide) (by decide) (by decide) (by decide) (by decide)]
      rw [ih]
  · decide

/-- **C8.**  For a fetched record flagged as a proxy with a known
(nonempty) implementation address whose fetch succeeds, the returned
source text is the implementation's code prefixed with exactly the two
comment lines naming the proxy and implementation addresses, and the
contract name is `"<ProxyName> (Proxy -> <ImplName>)"`. -/
theorem proxySpliceFormat
    (jp : String → Option (List (String × String)))
    (env : String → Option BasescanRecord) (address : String)
    (r : BasescanRecord) (impl : String) (implSource : ContractSource) (fuel : Nat)
    (henv : env address = some r) (hsrc : r.SourceCode ≠ "")
    (hpx : r.Proxy = "1") (himpl : r.Implementation = impl) (hne : impl ≠ "")
    (hrec : getContractSource jp env fuel impl = some (some implSource)) :
    getContractSource jp env (fuel + 1) address = some (some
      { contractAddress := address
        contractName :=
          (if r.ContractName = "" then "Unknown" else r.ContractName) ++
          " (Proxy -> " ++ implSource.contractName ++ ")"
        compilerVersion := if r.CompilerVersion = "" then "Unknown" else r.CompilerVersion
        sourceCode :=
          "// PROXY CONTRACT: " ++ address ++ "\n" ++
          "// IMPLEMENTATION: " ++ impl ++ "\n\n" ++
          implSource.sourceCode
        abi := if r.ABI = "" then "[]" else r.ABI
        constructorArguments := r.ConstructorArguments
        optimizationUsed := r.OptimizationUsed = "1"
        runs := r.Runs
        evmVersion := if r.EVMVersion = "" then "default" else r.EVMVersion
        library := r.Library
        licenseType := if r.LicenseType = "" then "None" else r.LicenseType
        isProxy := true
        implementationAddress := some impl }) := by
  rw [getContractSource_proxy_step jp env address r impl fuel henv hsrc hpx himpl hne]
  rw [hrec]
  simp only [baseSource, hpx, himpl, if_neg hne]
  simp

/-- The spec's proxy scenario: `0xproxy` is a proxy named `Foo` whose
implementation `0xABC` is the plain contract `Bar`. -/
def envFooBar : String → Option BasescanRecord := fun a =>
  if a = "0xproxy" then
    some { SourceCode := "srcFoo", ABI := "[]", ContractName := "Foo"
           CompilerVersion := "v1", OptimizationUsed := "0", Runs := 0
           ConstructorArguments := "", EVMVersion := "", Library := ""
           LicenseType := "", Proxy := "1", Implementation := "0xABC" }
  else if a = "0xABC" then
    some { SourceCode := "srcBar", ABI := "[]", ContractName := "Bar"
           CompilerVersion := "v1", OptimizationUsed := "0", Runs := 0
           ConstructorArguments := "", EVMVersion := "", Library := ""
           LicenseType := "", Proxy := "0", Implementation := "" }
  else none

theorem proxySpliceFormat_witness :
    (getContractSource jparseNone envFooBar 2 "0xproxy").map
        (Option.map fun cs => (cs.contractName, cs.sourceCode))
      = some (some ("Foo (Proxy -> Bar)",
          "// PROXY CONTRACT: 0xproxy\n// IMPLEMENTATION: 0xABC\n\nsrcBar")) := by
  rw [show (2 : Nat) = 1 + 1 from rfl]
  rw [proxySpliceFormat jparseNone envFooBar "0xproxy"
        { SourceCode := "srcFoo", ABI := "[]", ContractName := "Foo"
          CompilerVersion := "v1", OptimizationUsed := "0", Runs := 0
          ConstructorArguments := "", EVMVersion := "", Library := ""
          LicenseType := "", Proxy := "1", Implementation := "0xABC" }
        "0xABC"
        { contractAddress := "0xABC", contractName := "Bar"
          compilerVersion := "v1", sourceCode := "srcBar", abi := "[]"
          constructorArguments := "", optimizationUsed := false, runs := 0
          evmVersion := "default", library := "", licenseType := "None"
          isProxy := false, implementationAddress := none }
        1 (by decide) (by decide) (by decide) (by decide) (by decide) (by decide)]
  decide

/-! ## Claim C5 — confidence filter and overall risk -/

theorem sevRank_le_four (s : String) : sevRank s ≤ 4 := by
  unfold sevRank
  repeat' split
  all_goals omega

theorem le_maxSevRank {f : Finding} {fs : List Finding} (h : f ∈ fs) :
    sevRank f.severity ≤ maxSevRank fs := by
  induction fs with
  | nil => cases h
  | cons g gs ih =>
    rcases List.mem_cons.mp h with h1 | h2
    · subst h1
      exact Nat.le_max_left _ _
    · exact Nat.le_trans (ih h2) (Nat.le_max_right _ _)

theorem maxSevRank_le {fs : List Finding} {n : Nat}
    (h : ∀ f ∈ fs, sevRank f.severity ≤ n) : maxSevRank fs ≤ n := by
  induction fs with
  | nil => exact Nat.zero_le n
  | cons g gs ih =>
    refine Nat.max_le.mpr ⟨h g (List.mem_cons_self g gs), ih ?_⟩
    intro f hf
    exact h f (List.mem_cons_of_mem g hf)

theorem sevRank_eq_four {s : String} (h : s = "critical") : sevRank s = 4 := by
  subst h; rfl

/-- `determineOverallRisk` computes exactly the spec's "maximum
severity present, or none" aggregate. -/
theorem determineOverallRisk_eq_max (fs : List Finding) :
    determineOverallRisk fs = maxSeverityRisk fs := by
  unfold determineOverallRisk maxSeverityRisk
  cases h4 : fs.any (fun f => f.severity == "critical") with
  | true =>
    obtain ⟨f, hf, hsev⟩ := List.any_eq_true.mp h4
    rw [beq_iff_eq] at hsev
    have hge : 4 ≤ maxSevRank fs := by
      refine le_trans ?_ (le_maxSevRank hf)
      simp [sevRank, hsev]
    have hle : maxSevRank fs ≤ 4 := maxSevRank_le (fun g _ => sevRank_le_four _)
    rw [le_antisymm hle hge]
    rfl
  | false =>
    have hnc : ∀ f ∈ fs, ¬(f.severity = "critical") := fun f hf => by
      simpa using List.any_eq_false.mp h4 f hf
    simp only [Bool.false_eq_true, if_false]
    cases h3 : fs.any (fun f => f.severity == "high") with
    | true =>
      obtain ⟨f, hf, hsev⟩ := List.any_eq_true.mp h3
      rw [beq_iff_eq] at hsev
      have hge : 3 ≤ maxSevRank fs := by
        refine le_trans ?_ (le_maxSevRank hf)
        simp [sevRank, hsev]
      have hle : maxSevRank fs ≤ 3 := by
        refine maxSevRank_le (fun g hg => ?_)
        have t1 := hnc g hg
        unfold sevRank
        repeat' split
        all_goals first | omega | simp_all
      rw [le_antisymm hle hge]
      rfl
    | false =>
      have hnh : ∀ f ∈ fs, ¬(f.severity = "high") := fun f hf => by
        simpa using List.any_eq_false.mp h3 f hf
      simp only [Bool.false_eq_true, if_false]
      cases h2 : fs.any (fun f => f.severity == "medium") with
      | true =>
        obtain ⟨f, hf, hsev⟩ := List.any_eq_true.mp h2
        rw [beq_iff_eq] at hsev
        have hge : 2 ≤ maxSevRank fs := by
          refine le_trans ?_ (le_maxSevRank hf)
          simp [sevRank, hsev]
        have hle : maxSevRank fs ≤ 2 := by
          refine maxSevRank_le (fun g hg => ?_)
          have t1 := hnc g hg
          have t2 := hnh g hg
          unfold sevRank
          repeat' split
          all_goals first | omega | simp_all
        rw [le_antisymm hle hge]
        rfl
      | false =>
        have hnm : ∀ f ∈ fs, ¬(f.severity = "medium") := fun f hf => by
          simpa using List.any_eq_false.mp h2 f hf
        simp only [Bool.false_eq_true, if_false]
        cases h1 : fs.any (fun f => f.severity == "low") with
        | true =>
          obtain ⟨f, hf, hsev⟩ := List.any_eq_true.mp h1
          rw [beq_iff_eq] at hsev
          have hge : 1 ≤ maxSevRank fs := by
            refine le_trans ?_ (le_maxSevRank hf)
            simp [sevRank, hsev]
          have hle : maxSevRank fs ≤ 1 := by
            refine maxSevRank_le (fun g hg => ?_)
            have t1 := hnc g hg
            have t2 := hnh g hg
            have t3 := hnm g hg
            unfold sevRank
            repeat' split
            all_goals first | omega | simp_all
          rw [le_antisymm hle hge]
          rfl
        | false =>
          have hnl : ∀ f ∈ fs, ¬(f.severity = "low") := fun f hf => by
            simpa using List.any_eq_false.mp h1 f hf
          simp only [Bool.false_eq_true, if_false]
          have hzero : maxSevRank fs = 0 := by
            refine Nat.le_antisymm ?_ (Nat.zero_le _)
            refine maxSevRank_le (fun g hg => ?_)
            have t1 := hnc g hg
            have t2 := hnh g hg
            have t3 := hnm g hg
            have t4 := hnl g hg
            unfold sevRank
            repeat' split
            all_goals first | omega | simp_all
          rw [hzero]
          rfl

/-- **C5.**  The findings kept by the analyzer pipeline are exactly
the raw findings with confidence ≥ the configured threshold (filtered
per chunk and concatenated in chunk order, which coincides with
filtering the concatenation); no finding below the threshold survives,
every finding at or above it survives; and the persisted overall risk
computed by `determineOverallRisk` equals the maximum severity among
the kept findings (`critical > high > medium > low`), or `"none"` when
they are empty. -/
theorem confidenceFilterAndRisk (raws : List (List Finding)) (thr : ℚ)
    (jfind : String → Option (List Finding)) (text : String) (rawList : List Finding)
    (hj : jfind text = some rawList) :
    analyzeAggregate raws thr
      = (raws.flatten).filter (fun f => decide (thr ≤ f.confidence)) ∧
    (∀ f ∈ analyzeAggregate raws thr, thr ≤ f.confidence) ∧
    (∀ f ∈ raws.flatten, thr ≤ f.confidence → f ∈ analyzeAggregate raws thr) ∧
    parseFindings jfind text thr
      = rawList.filter (fun f => decide (thr ≤ f.confidence)) ∧
    (∀ fs : List Finding, determineOverallRisk fs = maxSeverityRisk fs) ∧
    determineOverallRisk [] = "none" := by
  have hagg : analyzeAggregate raws thr
      = (raws.flatten).filter (fun f => decide (thr ≤ f.confidence)) := by
    unfold analyzeAggregate
    rw [List.filter_flatten]
  refine ⟨hagg, ?_, ?_, ?_, fun fs => determineOverallRisk_eq_max fs, rfl⟩
  · intro f hf
    rw [hagg] at hf
    have := List.of_mem_filter hf
    simpa using this
  · intro f hf hconf
    rw [hagg]
    refine List.mem_filter.mpr ⟨hf, ?_⟩
    simpa using hconf
  · unfold parseFindings
    rw [hj]

theorem confidenceFilterAndRisk_witness :
    ((fun _ => some
        [{ type := "Reentrancy", severity := "critical", line := 45
           description := "d1", suggestion := "s1", cweId := some "CWE-841"
           confidence := 9/10, category := "reentrancy" },
         { type := "Timestamp", severity := "low", line := 10
           description := "d2", suggestion := "s2", cweId := none
           confidence := 1/2, category := "timestamp-dependency" }] :
        String → Option (List Finding)) "out" = some
        [{ type := "Reentrancy", severity := "critical", line := 45
           description := "d1", suggestion := "s1", cweId := some "CWE-841"
           confidence := 9/10, category := "reentrancy" },
         { type := "Timestamp", severity := "low", line := 10
           description := "d2", suggestion := "s2", cweId := none
           confidence := 1/2, category := "timestamp-dependency" }]) ∧
    parseFindings
        (fun _ => some
          [{ type := "Reentrancy", severity := "critical", line := 45
             description := "d1", suggestion := "s1", cweId := some "CWE-841"
             confidence := 9/10, category := "reentrancy" },
           { type := "Timestamp", severity := "low", line := 10
             description := "d2", suggestion := "s2", cweId := none
             confidence := 1/2, category := "timestamp-dependency" }])
        "out" (7/10)
      = List.filter (fun f => decide ((7/10 : ℚ) ≤ f.confidence))
          [{ type := "Reentrancy", severity := "critical", line := 45
             description := "d1", suggestion := "s1", cweId := some "CWE-841"
             confidence := 9/10, category := "reentrancy" },
           { type := "Timestamp", severity := "low", line := 10
             description := "d2", suggestion := "s2", cweId := none
             confidence := 1/2, category := "timestamp-dependency" }] :=
  ⟨rfl,
   (confidenceFilterAndRisk [] (7/10) _ "out" _ rfl).2.2.2.1⟩

/-! ## Lemmas about the boundary-regex scan -/

theorem countWhile_le (p : Char → Bool) (cs : List Char) : countWhile p cs ≤ cs.length :=
  (List.takeWhile_sublist p).length_le

/-- `List.isPrefixOf` only succeeds on a list at least as long. -/
theorem isPrefixOf_length_le {l1 l2 : List Char} (h : l1.isPrefixOf l2 = true) :
    l1.length ≤ l2.length := by
  induction l1 generalizing l2 with
  | nil => exact Nat.zero_le _
  | cons a t ih =>
    cases l2 with
    | nil => cases h
    | cons b t2 =>
      simp only [List.isPrefixOf, Bool.and_eq_true] at h
      simpa using ih h.2

theorem findBrace_lt {cs : List Char} {d : Nat} (h : findBrace cs = some d) :
    d < cs.length := by
  induction cs generalizing d with
  | nil => simp [findBrace] at h
  | cons c cs ih =>
    unfold findBrace at h
    split at h
    · cases h
      simp
    · cases hb : findBrace cs with
      | none => rw [hb] at h; cases h
      | some a =>
        rw [hb] at h
        cases h
        have := ih hb
        simp only [List.length_cons]
        omega

theorem tryKeywordAt_le {kw cs : List Char} {n : Nat}
    (h : tryKeywordAt kw cs = some n) : 0 < n ∧ n ≤ cs.length := by
  unfold tryKeywordAt at h
  by_cases hpre : kw.isPrefixOf cs
  case neg => rw [if_neg hpre] at h; cases h
  rw [if_pos hpre] at h
  have hk : kw.length ≤ cs.length := isPrefixOf_length_le hpre
  simp only at h
  by_cases h0 : countWhile jsIsSpace (cs.drop kw.length) = 0
  · rw [if_pos h0] at h; cases h
  rw [if_neg h0] at h
  by_cases h1 : countWhile jsIsWord ((cs.drop kw.length).drop
      (countWhile jsIsSpace (cs.drop kw.length))) = 0
  · rw [if_pos h1] at h; cases h
  rw [if_neg h1] at h
  cases hb : findBrace (((cs.drop kw.length).drop
      (countWhile jsIsSpace (cs.drop kw.length))).drop
        (countWhile jsIsWord ((cs.drop kw.length).drop
          (countWhile jsIsSpace (cs.drop kw.length))))) with
  | none => rw [hb] at h; cases h
  | some d =>
    rw [hb] at h
    cases h
    have hd := findBrace_lt hb
    have l2 := countWhile_le jsIsSpace (cs.drop kw.length)
    have l4 := countWhile_le jsIsWord ((cs.drop kw.length).drop
      (countWhile jsIsSpace (cs.drop kw.length)))
    simp only [List.length_drop] at hd l2 l4
    omega

theorem tryKeyword_le {cs : List Char} {n : Nat}
    (h : tryKeyword cs = some n) : 0 < n ∧ n ≤ cs.length := by
  unfold tryKeyword at h
  cases h1 : tryKeywordAt "contract".data cs with
  | some m => rw [h1] at h; cases h; exact tryKeywordAt_le h1
  | none =>
    rw [h1] at h
    cases h2 : tryKeywordAt "interface".data cs with
    | some m => rw [h2] at h; cases h; exact tryKeywordAt_le h2
    | none =>
      rw [h2] at h
      exact tryKeywordAt_le h

theorem tryDecl_le {cs : List Char} {n : Nat}
    (h : tryDecl cs = some n) : 0 < n ∧ n ≤ cs.length := by
  unfold tryDecl at h
  simp only at h
  by_cases hab : "abstract".data.isPrefixOf cs
  · rw [if_pos hab] at h
    have hk : ("abstract".data).length ≤ cs.length := isPrefixOf_length_le hab
    by_cases h0 : countWhile jsIsSpace (cs.drop 8) = 0
    · rw [if_pos h0] at h
      exact tryKeyword_le h
    · rw [if_neg h0] at h
      cases hk2 : tryKeyword ((cs.drop 8).drop (countWhile jsIsSpace (cs.drop 8))) with
      | none => rw [hk2] at h; simp at h; exact tryKeyword_le h
      | some m =>
        rw [hk2] at h
        simp only [Option.map_some'] at h
        cases h
        have hm := tryKeyword_le hk2
        have l2 := countWhile_le jsIsSpace (cs.drop 8)
        simp only [List.length_drop] at hm l2
        have : ("abstract".data).length = 8 := rfl
        omega
  · rw [if_neg hab] at h
    exact tryKeyword_le h

/-- The `(index, endIndex)` pairs produced by the scan are chained:
each is inside `[i, L]` and matches do not overlap. -/
def ChainFrom : Nat → Nat → List (Nat × Nat) → Prop
  | _, _, [] => True
  | i, L, (a, b) :: rest => i ≤ a ∧ a < b ∧ b ≤ L ∧ ChainFrom b L rest

theorem chainFrom_mono {i' i L : Nat} {ms : List (Nat × Nat)}
    (hle : i' ≤ i) (h : ChainFrom i L ms) : ChainFrom i' L ms := by
  cases ms with
  | nil => trivial
  | cons p rest =>
    obtain ⟨h1, h2⟩ := h
    exact ⟨Nat.le_trans hle h1, h2⟩

theorem scanFuel_chain : ∀ (fuel : Nat) (cs : List Char) (i : Nat),
    ChainFrom i (i + cs.length) (scanFuel fuel cs i) := by
  intro fuel
  induction fuel with
  | zero => intro cs i; trivial
  | succ f ih =>
    intro cs i
    cases cs with
    | nil => trivial
    | cons c ts =>
      unfold scanFuel
      by_cases hc : c = '\n'
      · rw [if_pos hc]
        cases hd : tryDecl ts with
        | none =>
          have := ih ts (i + 1)
          refine chainFrom_mono (Nat.le_succ i) ?_
          have harith : (i + 1) + ts.length = i + (c :: ts).length := by
            simp
            omega
          rw [harith] at this
          exact this
        | some n =>
          obtain ⟨hn0, hnle⟩ := tryDecl_le hd
          refine ⟨Nat.le_refl i, by omega, by simp; omega, ?_⟩
          have := ih (ts.drop n) (i + 1 + n)
          have harith : (i + 1 + n) + (ts.drop n).length = i + (c :: ts).length := by
            simp only [List.length_drop, List.length_cons]
            omega
          rw [harith] at this
          exact this
      · rw [if_neg hc]
        have := ih ts (i + 1)
        refine chainFrom_mono (Nat.le_succ i) ?_
        have harith : (i + 1) + ts.length = i + (c :: ts).length := by
          simp
          omega
        rw [harith] at this
        exact this

theorem scanMatches_chain (s : List Char) :
    ChainFrom 0 s.length (scanMatches s) := by
  unfold scanMatches
  cases hd : tryDecl s with
  | none =>
    have := scanFuel_chain s.length s 0
    simpa using this
  | some n =>
    obtain ⟨hn0, hnle⟩ := tryDecl_le hd
    refine ⟨Nat.le_refl 0, hn0, hnle, ?_⟩
    have := scanFuel_chain s.length (s.drop n) n
    have harith : n + (s.drop n).length = s.length := by
      simp only [List.length_drop]
      omega
    rw [harith] at this
    exact this

/-- Consecutive slices between chained match starts tile the source
from the first start onward. -/
theorem unitsOf_join (s : List Char) :
    ∀ (ms : List (Nat × Nat)) (a b i : Nat),
      ChainFrom i s.length ((a, b) :: ms) →
      (unitsOf s (((a, b) :: ms).map Prod.fst)).flatten = s.drop a := by
  intro ms
  induction ms with
  | nil =>
    intro a b i hch
    obtain ⟨_, hab, hbL, _⟩ := hch
    show (sliceStr s a s.length :: []).flatten = s.drop a
    simp only [List.flatten, List.append_nil, List.flatten_nil]
    unfold sliceStr
    have : s.length - a = (s.drop a).length := by simp
    rw [this, List.take_length]
  | cons p ms ih =>
    intro a b i hch
    obtain ⟨hia, hab, hbL, hch2⟩ := hch
    obtain ⟨a2, b2⟩ := p
    have ha2 : b ≤ a2 ∧ a2 < b2 := ⟨hch2.1, hch2.2.1⟩
    show (sliceStr s a a2 :: unitsOf s (((a2, b2) :: ms).map Prod.fst)).flatten = s.drop a
    rw [List.flatten_cons, ih a2 b2 b hch2]
    unfold sliceStr
    have h1 : List.drop (a2 - a) (s.drop a) = s.drop a2 := by
      rw [List.drop_drop]
      congr 1
      omega
    calc (s.drop a).take (a2 - a) ++ s.drop a2
        = (s.drop a).take (a2 - a) ++ List.drop (a2 - a) (s.drop a) := by rw [h1]
      _ = s.drop a := List.take_append_drop _ _

/-- When every unit fits the limit, the per-unit if-split keeps each
unit whole. -/
theorem flatten_map_fit {units : List (List Char)} {M : Nat}
    (hfit : ∀ u ∈ units, u.length ≤ M) :
    (units.map (fun u => if u.length ≤ M then [u] else splitByLines u M)).flatten
      = units := by
  induction units with
  | nil => rfl
  | cons u us ih =>
    rw [List.map_cons, List.flatten_cons, if_pos (hfit u (List.mem_cons_self u us)),
        ih (fun v hv => hfit v (List.mem_cons_of_mem u hv))]
    rfl

/-- Coverage of the boundary-split path of `chunkSourceCode`: with at
least two boundary matches and every unit within the limit, the
concatenation of the chunks is the source from the first boundary on,
prefixed by the trimmed preamble (when nonempty) and a blank line. -/
theorem chunkSourceCode_flatten (s : List Char) (i0 b0 : Nat)
    (m1 : Nat × Nat) (ms' : List (Nat × Nat))
    (hm : scanMatches s = (i0, b0) :: m1 :: ms')
    (hfit : ∀ u ∈ unitsOf s (((i0, b0) :: m1 :: ms').map Prod.fst),
      u.length ≤ MAX_SOURCE_LENGTH) :
    (chunkSourceCode s).flatten =
      if 0 < i0 then
        (if jsTrim (s.take i0) = [] then s.drop i0
         else jsTrim (s.take i0) ++ '\n' :: '\n' :: s.drop i0)
      else s.drop i0 := by
  have hchain := scanMatches_chain s
  rw [hm] at hchain
  have hjoin := unitsOf_join s (m1 :: ms') i0 b0 0 hchain
  obtain ⟨a2, b2⟩ := m1
  have hshape : unitsOf s (i0 :: a2 :: List.map Prod.fst ms')
      = sliceStr s i0 a2 :: unitsOf s (a2 :: List.map Prod.fst ms') := rfl
  simp only [List.map_cons] at hjoin hfit
  rw [hshape] at hjoin hfit
  have hflat := flatten_map_fit hfit
  unfold chunkSourceCode
  rw [hm]
  rw [if_neg (by simp)]
  simp only [List.map_cons]
  rw [hshape, hflat]
  by_cases h0 : 0 < i0
  · rw [if_pos h0, if_pos h0]
    by_cases hpre : jsTrim (s.take i0) = []
    · rw [if_pos hpre]
      rw [if_neg (by simp [hpre])]
      exact hjoin
    · rw [if_neg hpre]
      rw [if_pos (by simp [hpre])]
      rw [List.flatten_cons]
      rw [← hjoin]
      simp
  · rw [if_neg h0, if_neg h0]
    exact hjoin

/-! ## Lemmas about `splitNl` / `splitByLines` -/

theorem splitNl_ne_nil (cs : List Char) : splitNl cs ≠ [] := by
  cases cs with
  | nil => simp [splitNl]
  | cons c cs =>
    unfold splitNl
    split
    · simp
    · cases h : splitNl cs <;> simp

theorem splitNl_no_newline (cs : List Char) : ∀ l ∈ splitNl cs, '\n' ∉ l := by
  induction cs with
  | nil =>
    intro l hl
    simp [splitNl] at hl
    simp [hl]
  | cons c cs ih =>
    intro l hl
    unfold splitNl at hl
    by_cases hc : c = '\n'
    · rw [if_pos hc] at hl
      rcases List.mem_cons.mp hl with h1 | h2
      · simp [h1]
      · exact ih l h2
    · rw [if_neg hc] at hl
      cases hsp : splitNl cs with
      | nil => exact absurd hsp (splitNl_ne_nil cs)
      | cons l0 ls =>
        rw [hsp] at hl
        rcases List.mem_cons.mp hl with h1 | h2
        · subst h1
          intro hmem
          rcases List.mem_cons.mp hmem with h3 | h4
          · exact hc h3.symm
          · exact ih l0 (hsp ▸ List.mem_cons_self l0 ls) h4
        · exact ih l (hsp ▸ List.mem_cons_of_mem l0 h2)

/-- A source with no newline splits into the single line that is the
whole source. -/
theorem splitNl_single {cs : List Char} (h : ∀ c ∈ cs, ¬(c = '\n')) :
    splitNl cs = [cs] := by
  induction cs with
  | nil => rfl
  | cons c cs ih =>
    unfold splitNl
    rw [if_neg (h c (List.mem_cons_self c cs))]
    rw [ih (fun x hx => h x (List.mem_cons_of_mem c hx))]

/-- Joining chunks with a single `'\n'` between consecutive chunks
(the separator that `splitByLines` consumed at each chunk boundary). -/
def nlJoinAll : List (List Char) → List Char
  | [] => []
  | [l] => l
  | l :: l' :: ls => l ++ '\n' :: nlJoinAll (l' :: ls)

def nlJoin (ls : List (List Char)) : List Char :=
  (ls.map (fun l => '\n' :: l)).flatten

theorem nlJoinAll_cons (l : List Char) (ls : List (List Char)) :
    nlJoinAll (l :: ls) = l ++ nlJoin ls := by
  induction ls generalizing l with
  | nil => simp [nlJoinAll, nlJoin]
  | cons l' ls ih =>
    show l ++ '\n' :: nlJoinAll (l' :: ls) = l ++ nlJoin (l' :: ls)
    rw [ih l']
    simp [nlJoin]

theorem splitNl_join (cs : List Char) : nlJoinAll (splitNl cs) = cs := by
  induction cs with
  | nil => rfl
  | cons c cs ih =>
    unfold splitNl
    by_cases hc : c = '\n'
    · rw [if_pos hc]
      cases hsp : splitNl cs with
      | nil => exact absurd hsp (splitNl_ne_nil cs)
      | cons l ls =>
        rw [hsp] at ih
        show [] ++ '\n' :: nlJoinAll (l :: ls) = c :: cs
        rw [ih, hc]
        rfl
    · rw [if_neg hc]
      cases hsp : splitNl cs with
      | nil => exact absurd hsp (splitNl_ne_nil cs)
      | cons l ls =>
        rw [hsp] at ih
        cases ls with
        | nil =>
          show (c :: l) = c :: cs
          have : nlJoinAll [l] = l := rfl
          rw [this] at ih
          rw [ih]
        | cons l2 ls2 =>
          show (c :: l) ++ '\n' :: nlJoinAll (l2 :: ls2) = c :: cs
          have : nlJoinAll (l :: l2 :: ls2) = l ++ '\n' :: nlJoinAll (l2 :: ls2) := rfl
          rw [this] at ih
          rw [List.cons_append, ih]

theorem splitByLinesGo_ne_nil (maxLength : Nat) :
    ∀ (ls : List (List Char)) (current : List Char), current ≠ [] →
      splitByLinesGo maxLength ls current ≠ [] := by
  intro ls
  induction ls with
  | nil =>
    intro current hc
    simp [splitByLinesGo, hc]
  | cons l ls ih =>
    intro current hc
    unfold splitByLinesGo
    split
    · simp
    · exact ih _ (by simp)

theorem splitByLinesGo_spec (maxLength : Nat) :
    ∀ (ls : List (List Char)) (current : List Char), current ≠ [] →
      (∀ l ∈ ls, l ≠ []) →
      nlJoinAll (splitByLinesGo maxLength ls current) = current ++ nlJoin ls := by
  intro ls
  induction ls with
  | nil =>
    intro current hc _
    rw [splitByLinesGo, if_neg hc]
    simp [nlJoinAll, nlJoin]
  | cons l ls ih =>
    intro current hc hlines
    have hl : l ≠ [] := hlines l (List.mem_cons_self l ls)
    have hrest : ∀ x ∈ ls, x ≠ [] := fun x hx => hlines x (List.mem_cons_of_mem l hx)
    unfold splitByLinesGo
    split
    · -- push: `current` becomes a finished chunk, `l` starts the next one
      have hne := splitByLinesGo_ne_nil maxLength ls l hl
      cases hgo : splitByLinesGo maxLength ls l with
      | nil => exact absurd hgo hne
      | cons g gs =>
        show nlJoinAll (current :: g :: gs) = current ++ nlJoin (l :: ls)
        have h1 : nlJoinAll (current :: g :: gs) = current ++ '\n' :: nlJoinAll (g :: gs) := rfl
        rw [h1, ← hgo, ih l hl hrest]
        simp [nlJoin]
    · rw [ih (current ++ '\n' :: l) (by simp) hrest]
      simp [nlJoin]

/-- Reconstruction along the line-packing path: when no line of the
text is empty, rejoining the chunks with single newlines gives back
the text exactly. -/
theorem splitByLines_reconstruct {t : List Char} (m : Nat)
    (h : ∀ l ∈ splitNl t, l ≠ []) :
    nlJoinAll (splitByLines t m) = t := by
  unfold splitByLines
  cases hsp : splitNl t with
  | nil => exact absurd hsp (splitNl_ne_nil t)
  | cons l0 rest =>
    have hl0 : l0 ≠ [] := h l0 (hsp ▸ List.mem_cons_self l0 rest)
    have hrest : ∀ x ∈ rest, x ≠ [] :=
      fun x hx => h x (hsp ▸ List.mem_cons_of_mem l0 hx)
    unfold splitByLinesGo
    rw [if_neg (by simp)]
    rw [if_pos rfl]
    rw [splitByLinesGo_spec m rest l0 hl0 hrest]
    rw [← nlJoinAll_cons, ← hsp]
    exact splitNl_join t

/-- Every chunk of `splitByLines` either fits the limit or is a single
(unsplittable) line containing no newline. -/
theorem splitByLinesGo_bound (maxLength : Nat) :
    ∀ (ls : List (List Char)) (current : List Char),
      (current.length ≤ maxLength ∨ '\n' ∉ current) →
      (∀ l ∈ ls, '\n' ∉ l) →
      ∀ c ∈ splitByLinesGo maxLength ls current,
        c.length ≤ maxLength ∨ '\n' ∉ c := by
  intro ls
  induction ls with
  | nil =>
    intro current hcur _ c hc
    rw [splitByLinesGo] at hc
    split at hc
    · cases hc
    · rw [List.mem_singleton] at hc
      subst hc
      exact hcur
  | cons l ls ih =>
    intro current hcur hlines c hc
    have hl : '\n' ∉ l := hlines l (List.mem_cons_self l ls)
    have hrest : ∀ x ∈ ls, '\n' ∉ x := fun x hx => hlines x (List.mem_cons_of_mem l hx)
    unfold splitByLinesGo at hc
    split at hc
    · rcases List.mem_cons.mp hc with h1 | h2
      · subst h1
        exact hcur
      · exact ih l (Or.inr hl) hrest c h2
    · next hcond =>
      split at hc
      · exact ih l (Or.inr hl) hrest c hc
      · next hce =>
        refine ih (current ++ '\n' :: l) (Or.inl ?_) hrest c hc
        rw [Decidable.not_and_iff_or_not] at hcond
        rcases hcond with h1 | h2
        · simp only [not_lt] at h1
          simp only [List.length_append, List.length_cons]
          omega
        · exact absurd hce (by simpa using h2)

theorem splitByLines_bound (t : List Char) (m : Nat) :
    ∀ c ∈ splitByLines t m, c.length ≤ m ∨ '\n' ∉ c := by
  intro c hc
  exact splitByLinesGo_bound m (splitNl t) []
    (Or.inl (by simp)) (splitNl_no_newline t) c hc

/-! ## Stepping lemmas for the scan -/

theorem scanFuel_nil (fuel i : Nat) : scanFuel fuel [] i = [] := by
  cases fuel <;> rfl

theorem scanFuel_cons_nl {ts : List Char} {n : Nat} (hd : tryDecl ts = some n)
    (fuel i : Nat) :
    scanFuel (fuel + 1) ('\n' :: ts) i
      = (i, i + 1 + n) :: scanFuel fuel (ts.drop n) (i + 1 + n) := by
  conv_lhs => unfold scanFuel
  rw [if_pos rfl, hd]

/-- Scanning skips a newline-free prefix without finding anything. -/
theorem scanFuel_append_nonNl :
    ∀ (xs rest : List Char), (∀ c ∈ xs, ¬(c = '\n')) →
      ∀ (fuel i : Nat), xs.length + rest.length ≤ fuel →
      scanFuel fuel (xs ++ rest) i
        = scanFuel (fuel - xs.length) rest (i + xs.length) := by
  intro xs
  induction xs with
  | nil =>
    intro rest _ fuel i _
    simp
  | cons x xs ih =>
    intro rest h fuel i hf
    have hx : ¬(x = '\n') := h x (List.mem_cons_self x xs)
    cases fuel with
    | zero =>
      exfalso
      simp only [List.length_cons] at hf
      omega
    | succ f =>
      show scanFuel (f + 1) (x :: (xs ++ rest)) i = _
      conv_lhs => unfold scanFuel
      rw [if_neg hx]
      rw [ih rest (fun c hc => h c (List.mem_cons_of_mem x hc)) f (i + 1)
            (by simp only [List.length_cons] at hf; omega)]
      have h1 : f - xs.length = f + 1 - (x :: xs).length := by
        simp only [List.length_cons]
        omega
      have h2 : i + 1 + xs.length = i + (x :: xs).length := by
        simp only [List.length_cons]
        omega
      rw [h1, h2]

theorem scanFuel_no_nl {s : List Char} (h : ∀ c ∈ s, ¬(c = '\n'))
    (fuel i : Nat) (hf : s.length ≤ fuel) : scanFuel fuel s i = [] := by
  have := scanFuel_append_nonNl s [] h fuel i (by simpa using hf)
  rw [List.append_nil] at this
  rw [this, scanFuel_nil]

/-! ## Claim C3 — chunk sizes and the 20,000-character scenario -/

/-- One line of 16,001 `x`s: over the limit, no newline to pack at. -/
def oneLongLine : List Char := List.replicate 16001 'x'

theorem oneLongLine_no_nl : ∀ c ∈ oneLongLine, ¬(c = '\n') := by
  intro c hc
  rw [List.eq_of_mem_replicate hc]
  decide

theorem oneLongLine_len : oneLongLine.length = 16001 := by
  rw [oneLongLine, List.length_replicate]

theorem oneLongLine_ne_nil : oneLongLine ≠ [] := by
  intro h
  have hlen := congrArg List.length h
  rw [oneLongLine_len, List.length_nil] at hlen
  omega

theorem chunkSourceCode_oneLongLine : chunkSourceCode oneLongLine = [oneLongLine] := by
  have hscan : scanMatches oneLongLine = [] := by
    unfold scanMatches
    have hd : tryDecl oneLongLine = none := rfl
    rw [hd]
    exact scanFuel_no_nl oneLongLine_no_nl _ 0 (Nat.le_refl _)
  unfold chunkSourceCode
  rw [hscan]
  rw [if_pos (by simp)]
  unfold splitByLines
  rw [splitNl_single oneLongLine_no_nl]
  unfold splitByLinesGo
  rw [if_neg (by simp)]
  rw [if_pos rfl]
  unfold splitByLinesGo
  rw [if_neg oneLongLine_ne_nil]

/-- **C3 (counterexample).**  A 16,001-character source consisting of
one line is longer than 16,000 characters, yet the chunker returns it
as a single chunk of 16,001 characters — more than the claimed
16,000-character maximum (`splitByLines` never splits a line). -/
theorem chunkSize_counterexample :
    16000 < oneLongLine.length ∧
    chunkSourceCode oneLongLine = [oneLongLine] ∧
    ¬(∀ c ∈ chunkSourceCode oneLongLine, c.length ≤ 16000) := by
  refine ⟨by rw [oneLongLine_len]; omega, chunkSourceCode_oneLongLine, ?_⟩
  intro hall
  have := hall oneLongLine (by rw [chunkSourceCode_oneLongLine]; exact List.mem_singleton_self _)
  rw [oneLongLine_len] at this
  omega

/-! The spec's scenario: a 20,000-character source with three contract
declarations.  The pieces are kept right-nested so that the scan can be
stepped lemma by lemma. -/

def sPre : List Char := "pragma solidity ^0.8.0;".data

def sHead1 : List Char := "contract Alpha \x7b".data
def sFill1 : List Char := List.replicate 10000 'x' ++ ['\x7d']
def sBody1 : List Char := sHead1 ++ sFill1

def sHead2 : List Char := "contract Beta \x7b".data
def sFill2 : List Char := List.replicate 5000 'x' ++ ['\x7d']
def sBody2 : List Char := sHead2 ++ sFill2

def sHead3 : List Char := "contract Gamma \x7b".data
def sFill3 : List Char := List.replicate 4924 'x' ++ ['\x7d']
def sBody3 : List Char := sHead3 ++ sFill3

def sUnit1 : List Char := '\n' :: sBody1
def sUnit2 : List Char := '\n' :: sBody2
def sUnit3 : List Char := '\n' :: sBody3

def scenarioSource : List Char := sPre ++ (sUnit1 ++ (sUnit2 ++ sUnit3))

theorem sFill1_len : sFill1.length = 10001 := by
  rw [sFill1, List.length_append, List.length_replicate]
  rfl
theorem sFill2_len : sFill2.length = 5001 := by
  rw [sFill2, List.length_append, List.length_replicate]
  rfl
theorem sFill3_len : sFill3.length = 4925 := by
  rw [sFill3, List.length_append, List.length_replicate]
  rfl
theorem sUnit1_len : sUnit1.length = 10018 := by
  rw [sUnit1, List.length_cons, sBody1, List.length_append, sFill1_len,
      show sHead1.length = 16 from rfl]
theorem sUnit2_len : sUnit2.length = 5017 := by
  rw [sUnit2, List.length_cons, sBody2, List.length_append, sFill2_len,
      show sHead2.length = 15 from rfl]
theorem sUnit3_len : sUnit3.length = 4942 := by
  rw [sUnit3, List.length_cons, sBody3, List.length_append, sFill3_len,
      show sHead3.length = 16 from rfl]
theorem scenarioSource_len : scenarioSource.length = 20000 := by
  rw [scenarioSource, List.length_append, List.length_append, List.length_append,
      sUnit1_len, sUnit2_len, sUnit3_len, show sPre.length = 23 from rfl]

theorem sPre_no_nl : ∀ c ∈ sPre, ¬(c = '\n') := by decide

theorem sFill_no_nl (n : Nat) : ∀ c ∈ List.replicate n 'x' ++ ['\x7d'], ¬(c = '\n') := by
  intro c hc
  rcases List.mem_append.mp hc with h | h
  · rw [List.eq_of_mem_replicate h]
    decide
  · rw [List.mem_singleton.mp h]
    decide

theorem tryDecl_head1 (t : List Char) : tryDecl (sHead1 ++ t) = some 16 := rfl
theorem tryDecl_head2 (t : List Char) : tryDecl (sHead2 ++ t) = some 15 := rfl
theorem tryDecl_head3 (t : List Char) : tryDecl (sHead3 ++ t) = some 16 := rfl

theorem scanMatches_scenario :
    scanMatches scenarioSource = [(23, 40), (10041, 10057), (15058, 15075)] := by
  have hpre_len : sPre.length = 23 := rfl
  have hh1_len : sHead1.length = 16 := rfl
  have hh2_len : sHead2.length = 15 := rfl
  have hh3_len : sHead3.length = 16 := rfl
  have hb1 : sBody1 ++ (sUnit2 ++ sUnit3) = sHead1 ++ (sFill1 ++ (sUnit2 ++ sUnit3)) := by
    rw [sBody1, List.append_assoc]
  have hb2 : sBody2 ++ sUnit3 = sHead2 ++ (sFill2 ++ sUnit3) := by
    rw [sBody2, List.append_assoc]
  have hd1 : tryDecl (sBody1 ++ (sUnit2 ++ sUnit3)) = some 16 := by
    rw [hb1]
    exact tryDecl_head1 _
  have hd2 : tryDecl (sBody2 ++ sUnit3) = some 15 := by
    rw [hb2]
    exact tryDecl_head2 _
  have hd3 : tryDecl sBody3 = some 16 := tryDecl_head3 sFill3
  have hd0 : tryDecl scenarioSource = none := rfl
  unfold scanMatches
  rw [hd0, scenarioSource_len]
  show scanFuel 20000 (sPre ++ (sUnit1 ++ (sUnit2 ++ sUnit3))) 0 = _
  calc scanFuel 20000 (sPre ++ (sUnit1 ++ (sUnit2 ++ sUnit3))) 0
      = scanFuel 19977 (sUnit1 ++ (sUnit2 ++ sUnit3)) 23 := by
        rw [scanFuel_append_nonNl sPre (sUnit1 ++ (sUnit2 ++ sUnit3)) sPre_no_nl 20000 0
              (by simp only [List.length_append, sUnit1_len, sUnit2_len, sUnit3_len, hpre_len]
                  omega)]
        rw [hpre_len]
    _ = (23, 40) :: scanFuel 19976 (sFill1 ++ (sUnit2 ++ sUnit3)) 40 := by
        rw [show (19977 : Nat) = 19976 + 1 by norm_num]
        rw [show sUnit1 ++ (sUnit2 ++ sUnit3) = '\n' :: (sBody1 ++ (sUnit2 ++ sUnit3)) from rfl]
        rw [scanFuel_cons_nl hd1 19976 23]
        rw [hb1, List.drop_left' hh1_len]
    _ = (23, 40) :: scanFuel 9975 (sUnit2 ++ sUnit3) 10041 := by
        rw [scanFuel_append_nonNl sFill1 (sUnit2 ++ sUnit3) (sFill_no_nl 10000) 19976 40
              (by simp only [List.length_append, sUnit2_len, sUnit3_len, sFill1_len]
                  omega)]
        rw [sFill1_len]
    _ = (23, 40) :: (10041, 10057) :: scanFuel 9974 (sFill2 ++ sUnit3) 10057 := by
        rw [show (9975 : Nat) = 9974 + 1 by norm_num]
        rw [show sUnit2 ++ sUnit3 = '\n' :: (sBody2 ++ sUnit3) from rfl]
        rw [scanFuel_cons_nl hd2 9974 10041]
        rw [hb2, List.drop_left' hh2_len]
    _ = (23, 40) :: (10041, 10057) :: scanFuel 4973 sUnit3 15058 := by
        rw [scanFuel_append_nonNl sFill2 sUnit3 (sFill_no_nl 5000) 9974 10057
              (by simp only [List.length_append, sUnit3_len, sFill2_len]
                  omega)]
        rw [sFill2_len]
    _ = (23, 40) :: (10041, 10057) :: (15058, 15075) :: scanFuel 4972 sFill3 15075 := by
        rw [show (4973 : Nat) = 4972 + 1 by norm_num]
        rw [show sUnit3 = '\n' :: sBody3 from rfl]
        rw [scanFuel_cons_nl hd3 4972 15058]
        rw [show sBody3 = sHead3 ++ sFill3 from rfl, List.drop_left' hh3_len]
    _ = [(23, 40), (10041, 10057), (15058, 15075)] := by
        have hf3 : ∀ c ∈ sFill3, ¬(c = '\n') := sFill_no_nl 4924
        rw [scanFuel_no_nl hf3 4972 15075 (by rw [sFill3_len]; omega)]

theorem sPre_len : sPre.length = 23 := rfl

theorem slice1_scenario : sliceStr scenarioSource 23 10041 = sUnit1 := by
  unfold sliceStr
  rw [show (10041 - 23 : Nat) = 10018 by norm_num]
  rw [scenarioSource]
  rw [List.drop_left' sPre_len]
  rw [List.take_left' sUnit1_len]

theorem slice2_scenario : sliceStr scenarioSource 10041 15058 = sUnit2 := by
  unfold sliceStr
  rw [show (15058 - 10041 : Nat) = 5017 by norm_num]
  rw [scenarioSource]
  rw [← List.append_assoc]
  rw [List.drop_left' (by rw [List.length_append, sUnit1_len, sPre_len])]
  rw [List.take_left' sUnit2_len]

theorem slice3_scenario :
    sliceStr scenarioSource 15058 scenarioSource.length = sUnit3 := by
  unfold sliceStr
  rw [scenarioSource_len]
  rw [show (20000 - 15058 : Nat) = 4942 by norm_num]
  rw [scenarioSource]
  rw [← List.append_assoc, ← List.append_assoc]
  rw [List.drop_left' (by
    rw [List.length_append, List.length_append, sUnit1_len, sUnit2_len, sPre_len])]
  rw [← sUnit3_len, List.take_length]

theorem takePre_scenario : scenarioSource.take 23 = sPre := by
  rw [scenarioSource, List.take_left' sPre_len]

theorem jsTrim_sPre : jsTrim sPre = sPre := by decide

set_option maxRecDepth 4000 in
theorem chunkSourceCode_scenario :
    chunkSourceCode scenarioSource
      = [sPre ++ '\n' :: '\n' :: sUnit1, sUnit2, sUnit3] := by
  unfold chunkSourceCode
  rw [scanMatches_scenario]
  rw [if_neg (by simp)]
  dsimp only [List.map_cons, List.map_nil]
  have hu : unitsOf scenarioSource [23, 10041, 15058]
      = [sliceStr scenarioSource 23 10041, sliceStr scenarioSource 10041 15058,
         sliceStr scenarioSource 15058 scenarioSource.length] := rfl
  rw [hu, slice1_scenario, slice2_scenario, slice3_scenario]
  dsimp only [List.map_cons, List.map_nil]
  have hif1 : sUnit1.length ≤ MAX_SOURCE_LENGTH := by
    rw [sUnit1_len]
    norm_num [MAX_SOURCE_LENGTH]
  have hif2 : sUnit2.length ≤ MAX_SOURCE_LENGTH := by
    rw [sUnit2_len]
    norm_num [MAX_SOURCE_LENGTH]
  have hif3 : sUnit3.length ≤ MAX_SOURCE_LENGTH := by
    rw [sUnit3_len]
    norm_num [MAX_SOURCE_LENGTH]
  rw [if_pos hif1, if_pos hif2, if_pos hif3]
  rw [if_pos (show (0 : Nat) < 23 by norm_num)]
  rw [takePre_scenario, jsTrim_sPre]
  rw [if_pos (show sPre ≠ [] by decide)]
  rfl

/-- **C3 (amended).**  Chunks can exceed 16,000 characters in two
cases the code permits: a chunk that is a single line longer than the
limit (lines are never split — the counterexample), and the first
chunk after the preamble is prepended.  What holds is: every chunk of
the line-packing splitter either fits the limit or is a single line
with no newline in it; and the spec's concrete scenario does hold — a
20,000-character source with three contract declarations (each unit
within the limit) yields exactly 3 chunks, each ≤ 16,000 characters,
the first beginning with the preamble. -/
theorem chunkSizes_amended :
    (∀ (t : List Char) (m : Nat), ∀ c ∈ splitByLines t m, c.length ≤ m ∨ '\n' ∉ c) ∧
    scenarioSource.length = 20000 ∧
    chunkSourceCode scenarioSource = [sPre ++ '\n' :: '\n' :: sUnit1, sUnit2, sUnit3] ∧
    (∀ c ∈ chunkSourceCode scenarioSource, c.length ≤ 16000) ∧
    sPre <+: (sPre ++ '\n' :: '\n' :: sUnit1) := by
  refine ⟨fun t m => splitByLines_bound t m, scenarioSource_len,
    chunkSourceCode_scenario, ?_, ⟨'\n' :: '\n' :: sUnit1, rfl⟩⟩
  intro c hc
  rw [chunkSourceCode_scenario] at hc
  have hc1 : (sPre ++ '\n' :: '\n' :: sUnit1).length = 10043 := by
    rw [List.length_append, List.length_cons, List.length_cons, sUnit1_len, sPre_len]
  rcases List.mem_cons.mp hc with h | h
  · rw [h, hc1]
    omega
  rcases List.mem_cons.mp h with h2 | h2
  · rw [h2, sUnit2_len]
    omega
  rcases List.mem_cons.mp h2 with h3 | h3
  · rw [h3, sUnit3_len]
    omega
  · cases h3

theorem chunkSizes_amended_witness :
    ("ab".data ∈ splitByLines "ab".data 16000) ∧
    ("ab".data.length ≤ 16000 ∨ '\n' ∉ "ab".data) :=
  ⟨by decide, chunkSizes_amended.1 "ab".data 16000 "ab".data (by decide)⟩

/-! ## Claim C6 — chunk coverage of the original source -/

def c6Source : List Char := "pragma;\ncontract A \x7b\x7d\ncontract B \x7b\x7d".data

/-- **C6 (counterexample).**  For a source with a preamble and two
declarations, the concatenation of the chunks is not the original
source, and it still is not after removing the 9 characters of the
prepended preamble-plus-blank-line, nor when the chunks are rejoined
with single newlines: the preamble region of the original is replaced
by its trimmed copy and two inserted newlines, so no reading of
"reconstructs the original exactly, modulo the duplicated preamble"
holds. -/
theorem chunkCoverage_counterexample :
    chunkSourceCode c6Source
      = ["pragma;\n\n\ncontract A \x7b\x7d".data, "\ncontract B \x7b\x7d".data] ∧
    (chunkSourceCode c6Source).flatten ≠ c6Source ∧
    ((chunkSourceCode c6Source).flatten).drop 9 ≠ c6Source ∧
    nlJoinAll (chunkSourceCode c6Source) ≠ c6Source := by
  refine ⟨by decide, by decide, by decide, by decide⟩

/-- **C6 (amended).**  Coverage holds in this corrected form: on the
boundary-split path (at least two declaration matches, all units
within the limit) the chunk concatenation equals the source from the
first declaration boundary onward, prefixed — when the trimmed
preamble is nonempty — by that trimmed preamble and two newline
characters; the untrimmed preamble region is replaced, not duplicated.
On the no-boundary line-packing path, rejoining the chunks with a
single newline at each chunk boundary reconstructs the text exactly
(no line lost, none reordered), provided no line of the text is empty. -/
theorem chunkCoverage_amended :
    (∀ (s : List Char) (i0 b0 : Nat) (m1 : Nat × Nat) (ms' : List (Nat × Nat)),
      scanMatches s = (i0, b0) :: m1 :: ms' →
      (∀ u ∈ unitsOf s (((i0, b0) :: m1 :: ms').map Prod.fst),
        u.length ≤ MAX_SOURCE_LENGTH) →
      (chunkSourceCode s).flatten =
        if 0 < i0 then
          (if jsTrim (s.take i0) = [] then s.drop i0
           else jsTrim (s.take i0) ++ '\n' :: '\n' :: s.drop i0)
        else s.drop i0) ∧
    (∀ (t : List Char) (m : Nat), (∀ l ∈ splitNl t, l ≠ []) →
      nlJoinAll (splitByLines t m) = t) :=
  ⟨chunkSourceCode_flatten, fun _ m h => splitByLines_reconstruct m h⟩

theorem chunkCoverage_amended_witness :
    (chunkSourceCode c6Source).flatten =
      if 0 < 7 then
        (if jsTrim (c6Source.take 7) = [] then c6Source.drop 7
         else jsTrim (c6Source.take 7) ++ '\n' :: '\n' :: c6Source.drop 7)
      else c6Source.drop 7 :=
  chunkCoverage_amended.1 c6Source 7 20 (21, 34) [] (by decide) (by decide)

end BaseAuditBot
